import Mathlib

/-!
# Policy execution chain of the gateway extensions (`pkg/policies`)

A shallow embedding of `types.go`, `addheader.go`, `removeheader.go`,
`interceptor.go` and `executor.go`, followed by theorems about it.

Conventions of the embedding.

* A Go pointer or map that may be `nil` is an `Option`.
* A Go `error` result is an `Option GoError` (`none` is the `nil` error); where a
  function can also stop with a run-time fault (a nil dereference) the result is a
  `Res`.
* Go mutates the context through a pointer; here every `Execute` returns the
  context it leaves behind, next to its result.
* `http.Header` comes from the Go standard library.  It is modelled as a map from
  keys to value lists together with the library's `Set`, `Add`, `Del`, `Get`,
  `Values`, which address the map under `CanonicalMIMEHeaderKey` of the name.
* Two embeddings of the context are given.  In `PolicyContext` each header store is a
  value of its own, which is the program on contexts whose three header maps (of the
  request, of the response, the generic one) are three distinct map objects; the
  statements about one store and about the interceptor use it.  In `ContextRef` the
  stores are references to map objects that fields may share, as Go's `http.Header`
  values are; the statements that relate different stores (flow routing, the last
  policy to write a header) use it.
-/

namespace Policies

/-! ## Errors and results -/

/-- Go error values: `errors.New msg` (also `fmt.Errorf` without `%w`), and
`fmt.Errorf (pre ++ "%w") inner`, which keeps `inner` for `errors.Unwrap`. -/
inductive GoError where
  | new (msg : String)
  | wrap (pre : String) (inner : GoError)
deriving DecidableEq, Repr

/-- The `Error()` string of an error value. -/
def GoError.Error : GoError → String
  | .new msg => msg
  | .wrap pre inner => pre ++ inner.Error

/-- The `errors.Unwrap` of an error value. -/
def GoError.Unwrap : GoError → Option GoError
  | .new _ => none
  | .wrap _ inner => some inner

/-- Result of a call: a value, a returned error, or a run-time fault
(nil dereference) that unwinds the call. -/
inductive Res (α : Type) where
  | ok (a : α)
  | err (e : GoError)
  | fault (what : String)
deriving DecidableEq, Repr

/-- Result of a call that returns only `error`. -/
abbrev Outcome := Res Unit

/-! ## `http.Header` (Go standard library) -/

/-- The bytes `net/textproto` accepts in a header field name (RFC 7230 token
characters): letters, digits and the fifteen punctuation marks listed here by
character code. -/
def validHeaderFieldByte (c : Char) : Bool :=
  c.isAlphanum || [33, 35, 36, 37, 38, 39, 42, 43, 45, 46, 94, 95, 96, 124, 126].contains c.toNat

/-- The casing loop of `canonicalMIMEHeaderKey`: upper case for the first letter and
for a letter after a dash, lower case elsewhere. -/
def canonicalCase : Bool → List Char → List Char
  | _, [] => []
  | upper, c :: cs =>
    let c1 := if upper && c.isLower then c.toUpper
              else if !upper && c.isUpper then c.toLower
              else c
    c1 :: canonicalCase (c1 == '-') cs

/-- The function `textproto.CanonicalMIMEHeaderKey`: a name made of valid field bytes
only is put in canonical case; any other name (it has a space or an invalid byte)
is returned unchanged. -/
def CanonicalMIMEHeaderKey (s : String) : String :=
  if s.data.all validHeaderFieldByte then String.mk (canonicalCase true s.data) else s

/-- Go's `http.Header`, a `map[string][]string`: each key is absent (`none`) or holds
a list of values. -/
def Header : Type := String → Option (List String)

namespace Header

/-- The map `make(http.Header)`. -/
def empty : Header := fun _ => none

/-- The map entry `h[k]` with presence (`v, ok := h[k]`). -/
def entry (h : Header) (k : String) : Option (List String) := h k

/-- `h.Set(key, value)`: `h[CanonicalMIMEHeaderKey(key)] = []string{value}`. -/
def Set (h : Header) (key value : String) : Header :=
  fun k => if k = CanonicalMIMEHeaderKey key then some [value] else h k

/-- `h.Add(key, value)`: `key = CanonicalMIMEHeaderKey(key); h[key] = append(h[key], value)`. -/
def Add (h : Header) (key value : String) : Header :=
  fun k => if k = CanonicalMIMEHeaderKey key then some ((h k).getD [] ++ [value]) else h k

/-- `h.Del(key)`: `delete(h, CanonicalMIMEHeaderKey(key))`. -/
def Del (h : Header) (key : String) : Header :=
  fun k => if k = CanonicalMIMEHeaderKey key then none else h k

/-- `h.Values(key)`: `h[CanonicalMIMEHeaderKey(key)]` (no values when absent). -/
def Values (h : Header) (key : String) : List String :=
  (h (CanonicalMIMEHeaderKey key)).getD []

/-- `h.Get(key)`: the first value under the canonical key, `""` when there is none. -/
def Get (h : Header) (key : String) : String :=
  match h (CanonicalMIMEHeaderKey key) with
  | some (v :: _) => v
  | _ => ""

end Header

/-! ## `types.go` -/

/-- Byte strings (`[]byte`, and the Go `string` built from one): byte values as naturals. -/
abbrev Bytes := List Nat

/-- A body stream (`io.ReadCloser`) as far as `io.ReadAll` observes it: the bytes it
still delivers, and the error it reports after them in place of a clean end of
stream (`none` for a clean end). -/
structure Body where
  pending : Bytes
  failure : Option GoError
deriving DecidableEq, Repr

/-- `io.ReadAll(b)`: the bytes read, the error if any, and the stream afterwards
(drained). -/
def ioReadAll (b : Body) : Bytes × Option GoError × Body :=
  (b.pending, b.failure, { pending := [], failure := b.failure })

/-- `io.NopCloser(bytes.NewBuffer(bodyBytes))`: a fresh stream over a buffer. -/
def newBufferBody (bodyBytes : Bytes) : Body :=
  { pending := bodyBytes, failure := none }

/-- The part of `url.URL` the package reads. -/
structure URL where
  Path : String
deriving DecidableEq, Repr

/-- The fields of `http.Request` the package reads or writes. -/
structure Request where
  Method : String
  URL : Option URL
  Header : Option Header
  Body : Option Body

/-- The fields of `http.Response` the package reads or writes. -/
structure Response where
  Header : Option Header
  Body : Option Body

/-- `PolicyContext` of `types.go`.  `Metadata` is a `map[string]interface{}`; no
policy of the package touches it, its values are kept as strings. -/
structure PolicyContext where
  Request : Option Request
  Response : Option Response
  Headers : Option Header
  Metadata : Option (String → Option String)

/-- `Flow` of `types.go`, a string type. -/
abbrev Flow := String

/-- `RequestFlow`. -/
def RequestFlow : Flow := "request"

/-- `ResponseFlow`. -/
def ResponseFlow : Flow := "response"

/-- `FaultFlow`. -/
def FaultFlow : Flow := "fault"

/-- The `Policy` interface of `types.go`, for an implementation whose configuration
is fixed after construction: `Name()` and `Validate()` are then constants of the
value, and `Execute` is given on a non-nil context, which is how the executor
calls it; it returns its result and the context it leaves. -/
structure Policy where
  Name : String
  Execute : PolicyContext → Outcome × PolicyContext
  Validate : Option GoError

/-- A method written for a `*PolicyContext` that may be nil, applied to a non-nil
one. -/
def onContext (f : Option PolicyContext → Outcome × Option PolicyContext)
    (ctx : PolicyContext) : Outcome × PolicyContext :=
  ((f (some ctx)).1, ((f (some ctx)).2).getD ctx)

/-- The context after its request header map, mutated in place, has become `h`. -/
def PolicyContext.withRequestHeader (ctx : PolicyContext) (h : Header) : PolicyContext :=
  { ctx with Request := ctx.Request.map fun r => { r with Header := some h } }

/-- The context after its response header map, mutated in place, has become `h`. -/
def PolicyContext.withResponseHeader (ctx : PolicyContext) (h : Header) : PolicyContext :=
  { ctx with Response := ctx.Response.map fun r => { r with Header := some h } }

/-- The context after its generic header map, mutated in place, has become `h`. -/
def PolicyContext.withHeaders (ctx : PolicyContext) (h : Header) : PolicyContext :=
  { ctx with Headers := some h }

/-- The context after the map that the `switch` on `flow` bound to `headers`,
mutated in place, has become `h`.  The two other stores stay as they are: this is
the mutation on a context whose header maps are distinct map objects; `writeMap`
below is the mutation when fields may share a map. -/
def PolicyContext.withFlowHeaders (ctx : PolicyContext) (flow : Flow) (h : Header) :
    PolicyContext :=
  if flow = RequestFlow then ctx.withRequestHeader h
  else if flow = ResponseFlow then ctx.withResponseHeader h
  else ctx.withHeaders h

/-! ## `addheader.go` -/

/-- `AddHeaderPolicy`. -/
structure AddHeaderPolicy where
  HeaderName : String
  HeaderValue : String
  Flow : Flow
deriving DecidableEq, Repr

/-- `NewAddHeaderPolicy`. -/
def NewAddHeaderPolicy (headerName headerValue : String) (flow : Flow) : AddHeaderPolicy :=
  { HeaderName := headerName, HeaderValue := headerValue, Flow := flow }

/-- `AddHeaderPolicy.Name`. -/
def AddHeaderPolicy.Name (_p : AddHeaderPolicy) : String := "AddHeader"

/-- `AddHeaderPolicy.Execute`. -/
def AddHeaderPolicy.Execute (p : AddHeaderPolicy) :
    Option PolicyContext → Outcome × Option PolicyContext
  | none => (.err (.new "policy context cannot be nil"), none)
  | some ctx =>
    let headers : Option Header :=
      if p.Flow = RequestFlow then
        match ctx.Request with
        | some req => req.Header
        | none => none
      else if p.Flow = ResponseFlow then
        match ctx.Response with
        | some resp => resp.Header
        | none => none
      else ctx.Headers
    match headers with
    | none => (.err (.new "no headers available in context"), some ctx)
    | some h => (.ok (), some (ctx.withFlowHeaders p.Flow (h.Set p.HeaderName p.HeaderValue)))

/-- `AddHeaderPolicy.Validate`. -/
def AddHeaderPolicy.Validate (p : AddHeaderPolicy) : Option GoError :=
  if p.HeaderName = "" then some (.new "header name cannot be empty")
  else if p.HeaderValue = "" then some (.new "header value cannot be empty")
  else none

/-- An `*AddHeaderPolicy` as a `Policy` interface value. -/
def AddHeaderPolicy.toPolicy (p : AddHeaderPolicy) : Policy :=
  { Name := p.Name, Execute := onContext p.Execute, Validate := p.Validate }

/-! ## `removeheader.go` -/

/-- `RemoveHeaderPolicy`. -/
structure RemoveHeaderPolicy where
  HeaderName : String
  Flow : Flow
deriving DecidableEq, Repr

/-- `NewRemoveHeaderPolicy`. -/
def NewRemoveHeaderPolicy (headerName : String) (flow : Flow) : RemoveHeaderPolicy :=
  { HeaderName := headerName, Flow := flow }

/-- `RemoveHeaderPolicy.Name`. -/
def RemoveHeaderPolicy.Name (_p : RemoveHeaderPolicy) : String := "RemoveHeader"

/-- `RemoveHeaderPolicy.Execute`. -/
def RemoveHeaderPolicy.Execute (p : RemoveHeaderPolicy) :
    Option PolicyContext → Outcome × Option PolicyContext
  | none => (.err (.new "policy context cannot be nil"), none)
  | some ctx =>
    let headers : Option Header :=
      if p.Flow = RequestFlow then
        match ctx.Request with
        | some req => req.Header
        | none => none
      else if p.Flow = ResponseFlow then
        match ctx.Response with
        | some resp => resp.Header
        | none => none
      else ctx.Headers
    match headers with
    | none => (.err (.new "no headers available in context"), some ctx)
    | some h => (.ok (), some (ctx.withFlowHeaders p.Flow (h.Del p.HeaderName)))

/-- `RemoveHeaderPolicy.Validate`. -/
def RemoveHeaderPolicy.Validate (p : RemoveHeaderPolicy) : Option GoError :=
  if p.HeaderName = "" then some (.new "header name cannot be empty") else none

/-- A `*RemoveHeaderPolicy` as a `Policy` interface value. -/
def RemoveHeaderPolicy.toPolicy (p : RemoveHeaderPolicy) : Policy :=
  { Name := p.Name, Execute := onContext p.Execute, Validate := p.Validate }

/-! ## `interceptor.go` -/

/-- The field of `http.Client` the package sets. -/
structure Client where
  Timeout : Int
deriving DecidableEq, Repr

/-- `InterceptorPolicy`; `Timeout` is a `time.Duration` (nanoseconds). -/
structure InterceptorPolicy where
  ServiceURL : String
  Timeout : Int
  Flow : Flow
  HTTPClient : Option Client
deriving DecidableEq, Repr

/-- `InterceptorRequest`, the snapshot sent to the service.  `Body` is the Go string
built from the bytes read. -/
structure InterceptorRequest where
  Headers : Option Header
  Body : Bytes
  Method : String
  Path : String

/-- `InterceptorResponse`.  `Headers` is a Go map; it is given by its entries in the
order in which the `range` loop of `Execute` visits them (an order the Go run time
chooses), the keys being pairwise distinct. -/
structure InterceptorResponse where
  Headers : List (String × List String)
  Body : String
  Status : Int
deriving DecidableEq, Repr

/-- `time.Second` in nanoseconds. -/
def timeSecond : Int := 1000000000

/-- `http.StatusOK`. -/
def StatusOK : Int := 200

/-- `NewInterceptorPolicy`. -/
def NewInterceptorPolicy (serviceURL : String) (flow : Flow) : InterceptorPolicy :=
  { ServiceURL := serviceURL
    Timeout := 30 * timeSecond
    Flow := flow
    HTTPClient := some { Timeout := 30 * timeSecond } }

/-- `InterceptorPolicy.Name`. -/
def InterceptorPolicy.Name (_p : InterceptorPolicy) : String := "Interceptor"

/-- The request `http.NewRequest` builds for the service call. -/
structure OutRequest where
  Method : String
  URL : String
  Header : Header
  Body : Bytes

/-- The reply `HTTPClient.Do` returns. -/
structure Reply where
  StatusCode : Int
  Body : Body
deriving DecidableEq, Repr

/-- The library and network calls `callInterceptor` makes, as parameters of the
embedding: `json.Marshal`, `http.NewRequest`, `(*http.Client).Do` and
`json.Unmarshal` into an `InterceptorResponse`. -/
structure Services where
  jsonMarshal : InterceptorRequest → Except GoError Bytes
  httpNewRequest : String → String → Bytes → Except GoError OutRequest
  clientDo : Client → OutRequest → Except GoError Reply
  jsonUnmarshal : Bytes → Except GoError InterceptorResponse

/-- `InterceptorPolicy.callInterceptor`.  A nil `p.HTTPClient` faults in `Do`. -/
def InterceptorPolicy.callInterceptor (sv : Services) (p : InterceptorPolicy)
    (req : InterceptorRequest) : Res InterceptorResponse :=
  match sv.jsonMarshal req with
  | .error err => .err (.wrap "failed to marshal request: " err)
  | .ok reqBody =>
    match sv.httpNewRequest "POST" p.ServiceURL reqBody with
    | .error err => .err (.wrap "failed to create request: " err)
    | .ok httpReq0 =>
      let httpReq : OutRequest :=
        { httpReq0 with Header := httpReq0.Header.Set "Content-Type" "application/json" }
      match p.HTTPClient with
      | none => .fault "nil pointer dereference: p.HTTPClient"
      | some client =>
        match sv.clientDo client httpReq with
        | .error err => .err (.wrap "failed to call interceptor service: " err)
        | .ok resp =>
          if resp.StatusCode ≠ StatusOK then
            .err (.new ("interceptor service returned status " ++ toString resp.StatusCode))
          else
            match ioReadAll resp.Body with
            | (_, some err, _) => .err (.wrap "failed to read response: " err)
            | (respBody, none, _) =>
              match sv.jsonUnmarshal respBody with
              | .error err => .err (.wrap "failed to unmarshal response: " err)
              | .ok interceptorResp => .ok interceptorResp

/-- The loop of `Execute` over the reply's header entries:
`headers.Del(key)`, then `headers.Add(key, value)` for each value. -/
def applyReplyHeaders : List (String × List String) → Header → Header
  | [], h => h
  | (key, values) :: rest, h =>
    applyReplyHeaders rest (values.foldl (fun acc value => acc.Add key value) (h.Del key))

/-- What a call of `InterceptorPolicy.Execute` leaves: its result, the context, and
(ghost) the snapshot it handed to `callInterceptor`, if it got that far. -/
structure InterceptorRun where
  result : Outcome
  ctx : Option PolicyContext
  sent : Option InterceptorRequest

/-- `InterceptorPolicy.Execute` from the check `headers == nil` to the end, with the
values the `switch` left in the locals `req`, `headers` and `body`. -/
def InterceptorPolicy.afterSwitch (sv : Services) (p : InterceptorPolicy)
    (ctx : PolicyContext) (req : Option Request) (headers : Option Header) (body : Bytes) :
    InterceptorRun :=
  match headers with
  | none => ⟨.err (.new "no headers available in context"), some ctx, none⟩
  | some h =>
    let interceptorReq0 : InterceptorRequest :=
      { Headers := some h, Body := body, Method := "", Path := "" }
    let built : Option InterceptorRequest :=
      match req with
      | none => some interceptorReq0
      | some r =>
        match r.URL with
        | none => none
        | some u => some { interceptorReq0 with Method := r.Method, Path := u.Path }
    match built with
    | none => ⟨.fault "nil pointer dereference: req.URL", some ctx, none⟩
    | some interceptorReq =>
      match p.callInterceptor sv interceptorReq with
      | .err err =>
        ⟨.err (.wrap "interceptor service call failed: " err), some ctx, some interceptorReq⟩
      | .fault what => ⟨.fault what, some ctx, some interceptorReq⟩
      | .ok interceptorResp =>
        ⟨.ok (), some (ctx.withFlowHeaders p.Flow (applyReplyHeaders interceptorResp.Headers h)),
          some interceptorReq⟩

/-- `InterceptorPolicy.Execute`: the nil check and the `switch` on the flow, which
drains and reinstates the body; the rest is `afterSwitch`. -/
def InterceptorPolicy.Execute (sv : Services) (p : InterceptorPolicy) :
    Option PolicyContext → InterceptorRun
  | none => ⟨.err (.new "policy context cannot be nil"), none, none⟩
  | some ctx =>
    if p.Flow = RequestFlow then
      match ctx.Request with
      | none => ⟨.err (.new "request is nil"), some ctx, none⟩
      | some req =>
        match req.Body with
        | none => p.afterSwitch sv ctx (some req) req.Header []
        | some stream =>
          match ioReadAll stream with
          | (_, some err, drained) =>
            ⟨.err (.wrap "failed to read request body: " err),
              some { ctx with Request := some { req with Body := some drained } }, none⟩
          | (bodyBytes, none, _) =>
            let req1 : Request := { req with Body := some (newBufferBody bodyBytes) }
            p.afterSwitch sv { ctx with Request := some req1 } (some req1) req1.Header bodyBytes
    else if p.Flow = ResponseFlow then
      match ctx.Response with
      | none => ⟨.err (.new "response is nil"), some ctx, none⟩
      | some resp =>
        match resp.Body with
        | none => p.afterSwitch sv ctx none resp.Header []
        | some stream =>
          match ioReadAll stream with
          | (_, some err, drained) =>
            ⟨.err (.wrap "failed to read response body: " err),
              some { ctx with Response := some { resp with Body := some drained } }, none⟩
          | (bodyBytes, none, _) =>
            let resp1 : Response := { resp with Body := some (newBufferBody bodyBytes) }
            p.afterSwitch sv { ctx with Response := some resp1 } none resp1.Header bodyBytes
    else p.afterSwitch sv ctx none ctx.Headers []

/-- `InterceptorPolicy.Validate`. -/
def InterceptorPolicy.Validate (p : InterceptorPolicy) : Option GoError :=
  if p.ServiceURL = "" then some (.new "service URL cannot be empty")
  else if p.Timeout ≤ 0 then some (.new "timeout must be positive")
  else none

/-- An `*InterceptorPolicy` as a `Policy` interface value, the service it talks to
being `sv`. -/
def InterceptorPolicy.toPolicy (sv : Services) (p : InterceptorPolicy) : Policy :=
  { Name := p.Name
    Execute := onContext fun c => ((p.Execute sv c).result, (p.Execute sv c).ctx)
    Validate := p.Validate }

/-! ## `executor.go` -/

/-- `Executor`. -/
structure Executor where
  policies : List Policy

/-- `NewExecutor`. -/
def NewExecutor : Executor := { policies := [] }

/-- `Executor.AddPolicy`: the returned error and the executor afterwards. -/
def Executor.AddPolicy (e : Executor) : Option Policy → Option GoError × Executor
  | none => (some (.new "policy cannot be nil"), e)
  | some policy =>
    match policy.Validate with
    | some err => (some (.wrap "policy validation failed: " err), e)
    | none => (none, { policies := e.policies ++ [policy] })

/-- What a call of `Executor.Execute` leaves: its result, the context, and (ghost)
the policies whose `Execute` it invoked, in call order. -/
structure ExecutorRun where
  result : Outcome
  ctx : Option PolicyContext
  calls : List Policy

/-- The `for _, policy := range e.policies` loop of `Executor.Execute`. -/
def Executor.loop : List Policy → PolicyContext → ExecutorRun
  | [], ctx => ⟨.ok (), some ctx, []⟩
  | policy :: rest, ctx =>
    match policy.Execute ctx with
    | (.ok _, ctx1) =>
      let run := Executor.loop rest ctx1
      ⟨run.result, run.ctx, policy :: run.calls⟩
    | (.err err, ctx1) =>
      ⟨.err (.wrap ("policy " ++ policy.Name ++ " execution failed: ") err), some ctx1, [policy]⟩
    | (.fault what, ctx1) => ⟨.fault what, some ctx1, [policy]⟩

/-- `Executor.Execute`. -/
def Executor.Execute (e : Executor) : Option PolicyContext → ExecutorRun
  | none => ⟨.err (.new "policy context cannot be nil"), none, []⟩
  | some ctx => Executor.loop e.policies ctx

/-- `Executor.GetPolicies`. -/
def Executor.GetPolicies (e : Executor) : List Policy := e.policies

/-- `Executor.Clear`. -/
def Executor.Clear (_e : Executor) : Executor := { policies := [] }

/-! ## Header maps held by reference

An `http.Header` is a Go map, a reference to a map object: when two fields of a
context hold the same map, a `Set` or `Del` through one is seen through the other.
Here the context holds the identities of its maps and the map objects are kept
aside.  The header policies and the executor are embedded a second time on this
representation, from the same source lines. -/

/-- Identity of a map object. -/
abbrev MapRef := Nat

/-- The fields of `http.Request` the package reads or writes, the header map by
reference. -/
structure RequestRef where
  Method : String
  URL : Option URL
  Header : Option MapRef
  Body : Option Body
deriving DecidableEq, Repr

/-- The fields of `http.Response` the package reads or writes, the header map by
reference. -/
structure ResponseRef where
  Header : Option MapRef
  Body : Option Body
deriving DecidableEq, Repr

/-- `PolicyContext` of `types.go` with its header maps by reference. -/
structure ContextRef where
  Request : Option RequestRef
  Response : Option ResponseRef
  Headers : Option MapRef
  Metadata : Option (String → Option String)

/-- The map objects after the object `r`, mutated in place, has become `h`. -/
def writeMap (maps : MapRef → Header) (r : MapRef) (h : Header) : MapRef → Header :=
  fun k => if k = r then h else maps k

/-- `AddHeaderPolicy.Execute` on a context by reference: the result and the map
objects afterwards.  It assigns no field of the context. -/
def AddHeaderPolicy.ExecuteRef (p : AddHeaderPolicy) :
    Option ContextRef → (MapRef → Header) → Outcome × (MapRef → Header)
  | none, maps => (.err (.new "policy context cannot be nil"), maps)
  | some ctx, maps =>
    let headers : Option MapRef :=
      if p.Flow = RequestFlow then
        match ctx.Request with
        | some req => req.Header
        | none => none
      else if p.Flow = ResponseFlow then
        match ctx.Response with
        | some resp => resp.Header
        | none => none
      else ctx.Headers
    match headers with
    | none => (.err (.new "no headers available in context"), maps)
    | some r => (.ok (), writeMap maps r ((maps r).Set p.HeaderName p.HeaderValue))

/-- `RemoveHeaderPolicy.Execute` on a context by reference: the result and the map
objects afterwards.  It assigns no field of the context. -/
def RemoveHeaderPolicy.ExecuteRef (p : RemoveHeaderPolicy) :
    Option ContextRef → (MapRef → Header) → Outcome × (MapRef → Header)
  | none, maps => (.err (.new "policy context cannot be nil"), maps)
  | some ctx, maps =>
    let headers : Option MapRef :=
      if p.Flow = RequestFlow then
        match ctx.Request with
        | some req => req.Header
        | none => none
      else if p.Flow = ResponseFlow then
        match ctx.Response with
        | some resp => resp.Header
        | none => none
      else ctx.Headers
    match headers with
    | none => (.err (.new "no headers available in context"), maps)
    | some r => (.ok (), writeMap maps r ((maps r).Del p.HeaderName))

/-- What a policy can change: the context and the map objects its references point
to. -/
structure Memory where
  ctx : ContextRef
  maps : MapRef → Header

/-- The `Policy` interface of `types.go` on contexts by reference, for an
implementation whose configuration is fixed after construction; `Execute` is given
on a non-nil context and returns its result and the memory it leaves. -/
structure PolicyRef where
  Name : String
  Execute : Memory → Outcome × Memory
  Validate : Option GoError

/-- An `*AddHeaderPolicy` as a `PolicyRef` interface value. -/
def AddHeaderPolicy.toPolicyRef (p : AddHeaderPolicy) : PolicyRef :=
  { Name := p.Name
    Execute := fun m =>
      ((p.ExecuteRef (some m.ctx) m.maps).1,
        { ctx := m.ctx, maps := (p.ExecuteRef (some m.ctx) m.maps).2 })
    Validate := p.Validate }

/-- A `*RemoveHeaderPolicy` as a `PolicyRef` interface value. -/
def RemoveHeaderPolicy.toPolicyRef (p : RemoveHeaderPolicy) : PolicyRef :=
  { Name := p.Name
    Execute := fun m =>
      ((p.ExecuteRef (some m.ctx) m.maps).1,
        { ctx := m.ctx, maps := (p.ExecuteRef (some m.ctx) m.maps).2 })
    Validate := p.Validate }

/-- `Executor` holding policies on contexts by reference. -/
structure ExecutorRef where
  policies : List PolicyRef

/-- What a call of `Executor.Execute` leaves, on contexts by reference: its result,
the context, the map objects, and (ghost) the policies whose `Execute` it invoked,
in call order. -/
structure ExecutorRunRef where
  result : Outcome
  ctx : Option ContextRef
  maps : MapRef → Header
  calls : List PolicyRef

/-- The `for _, policy := range e.policies` loop of `Executor.Execute`, on contexts
by reference. -/
def ExecutorRef.loop : List PolicyRef → Memory → ExecutorRunRef
  | [], m => ⟨.ok (), some m.ctx, m.maps, []⟩
  | policy :: rest, m =>
    match policy.Execute m with
    | (.ok _, m1) =>
      let run := ExecutorRef.loop rest m1
      ⟨run.result, run.ctx, run.maps, policy :: run.calls⟩
    | (.err err, m1) =>
      ⟨.err (.wrap ("policy " ++ policy.Name ++ " execution failed: ") err),
        some m1.ctx, m1.maps, [policy]⟩
    | (.fault what, m1) => ⟨.fault what, some m1.ctx, m1.maps, [policy]⟩

/-- `Executor.Execute`, on contexts by reference. -/
def ExecutorRef.Execute (e : ExecutorRef) :
    Option ContextRef → (MapRef → Header) → ExecutorRunRef
  | none, maps => ⟨.err (.new "policy context cannot be nil"), none, maps, []⟩
  | some ctx, maps => ExecutorRef.loop e.policies { ctx := ctx, maps := maps }

/-! ## Notions the statements use -/

/-- The context after the policies of a list have been applied one after the other,
each to the context the one before it left. -/
def effects : List Policy → PolicyContext → PolicyContext
  | [], ctx => ctx
  | p :: ps, ctx => effects ps (p.Execute ctx).2

/-- Each policy of the list, applied in turn to the context its predecessors left,
returns no error. -/
def succeedInTurn : List Policy → PolicyContext → Prop
  | [], _ => True
  | p :: ps, ctx => (p.Execute ctx).1 = .ok () ∧ succeedInTurn ps (p.Execute ctx).2

instance succeedInTurnDecidable :
    (ps : List Policy) → (ctx : PolicyContext) → Decidable (succeedInTurn ps ctx)
  | [], _ => isTrue trivial
  | p :: ps, ctx =>
    have := succeedInTurnDecidable ps (p.Execute ctx).2
    inferInstanceAs (Decidable ((p.Execute ctx).1 = .ok () ∧ succeedInTurn ps (p.Execute ctx).2))

/-- The executor after `AddPolicy` has been called with each policy of a list in
turn. -/
def Executor.addAll (e : Executor) (ps : List Policy) : Executor :=
  ps.foldl (fun ex q => (ex.AddPolicy (some q)).2) e

/-- The header store a flow selects in a context, in the words of the specification:
the request headers for `request`, the response headers for `response`, the generic
headers for any other flow; `none` when that store is absent. -/
def selectedStore (flow : Flow) (ctx : PolicyContext) : Option Header :=
  if flow = "request" then ctx.Request.bind fun r => r.Header
  else if flow = "response" then ctx.Response.bind fun r => r.Header
  else ctx.Headers

/-- The three header stores of a context. -/
inductive StoreId where
  | request
  | response
  | generic
deriving DecidableEq, Repr

/-- The store a flow value selects. -/
def storeOf (flow : Flow) : StoreId :=
  if flow = "request" then .request else if flow = "response" then .response else .generic

/-- Either of the two header policies. -/
inductive HeaderPolicy where
  | add (p : AddHeaderPolicy)
  | remove (p : RemoveHeaderPolicy)
deriving DecidableEq, Repr

/-- The flow the policy is configured with. -/
def HeaderPolicy.Flow : HeaderPolicy → Flow
  | .add p => p.Flow
  | .remove p => p.Flow

/-- The header name the policy is configured with. -/
def HeaderPolicy.HeaderName : HeaderPolicy → String
  | .add p => p.HeaderName
  | .remove p => p.HeaderName

/-- The policy's own `Execute`. -/
def HeaderPolicy.Execute : HeaderPolicy → Option PolicyContext → Outcome × Option PolicyContext
  | .add p => p.Execute
  | .remove p => p.Execute

/-- The policy as a `Policy` interface value. -/
def HeaderPolicy.toPolicy : HeaderPolicy → Policy
  | .add p => p.toPolicy
  | .remove p => p.toPolicy

/-- The library call the policy makes on a header map: `Set(name, value)` for an
add-header policy, `Del(name)` for a remove-header policy. -/
def HeaderPolicy.change : HeaderPolicy → Header → Header
  | .add p, h => h.Set p.HeaderName p.HeaderValue
  | .remove p, h => h.Del p.HeaderName

/-- What the policy is configured to leave under its header name: the one configured
value for an add-header policy, no entry for a remove-header policy. -/
def HeaderPolicy.written : HeaderPolicy → Option (List String)
  | .add p => some [p.HeaderValue]
  | .remove _ => none

/-- The policy's own `Execute` on a context by reference. -/
def HeaderPolicy.ExecuteRef :
    HeaderPolicy → Option ContextRef → (MapRef → Header) → Outcome × (MapRef → Header)
  | .add p => p.ExecuteRef
  | .remove p => p.ExecuteRef

/-- The policy as a `PolicyRef` interface value. -/
def HeaderPolicy.toPolicyRef : HeaderPolicy → PolicyRef
  | .add p => p.toPolicyRef
  | .remove p => p.toPolicyRef

/-- The map object a flow selects in a context by reference, in the words of the
specification: the request's header map for `request`, the response's for
`response`, the generic one for any other flow; `none` when there is none. -/
def selectedRef (flow : Flow) (ctx : ContextRef) : Option MapRef :=
  if flow = "request" then ctx.Request.bind fun r => r.Header
  else if flow = "response" then ctx.Response.bind fun r => r.Header
  else ctx.Headers

/-- The memory after the policies of a list have been applied one after the other,
each to the memory the one before it left. -/
def effectsRef : List PolicyRef → Memory → Memory
  | [], m => m
  | p :: ps, m => effectsRef ps (p.Execute m).2

/-- Each policy of the list, applied in turn to the memory its predecessors left,
returns no error. -/
def succeedInTurnRef : List PolicyRef → Memory → Prop
  | [], _ => True
  | p :: ps, m => (p.Execute m).1 = .ok () ∧ succeedInTurnRef ps (p.Execute m).2

instance succeedInTurnRefDecidable :
    (ps : List PolicyRef) → (m : Memory) → Decidable (succeedInTurnRef ps m)
  | [], _ => isTrue trivial
  | p :: ps, m =>
    have := succeedInTurnRefDecidable ps (p.Execute m).2
    inferInstanceAs (Decidable ((p.Execute m).1 = .ok () ∧ succeedInTurnRef ps (p.Execute m).2))

/-- The context by value that a memory shows: every reference replaced by the map
object it points to. -/
def Memory.view (m : Memory) : PolicyContext :=
  { Request := m.ctx.Request.map fun r =>
      { Method := r.Method, URL := r.URL, Header := r.Header.map m.maps, Body := r.Body }
    Response := m.ctx.Response.map fun r =>
      { Header := r.Header.map m.maps, Body := r.Body }
    Headers := m.ctx.Headers.map m.maps
    Metadata := m.ctx.Metadata }

/-- The header maps of the context are pairwise different map objects. -/
def ContextRef.unshared (ctx : ContextRef) : Prop :=
  (∀ a b, (ctx.Request.bind fun r => r.Header) = some a →
    (ctx.Response.bind fun r => r.Header) = some b → a ≠ b) ∧
  (∀ a b, (ctx.Request.bind fun r => r.Header) = some a → ctx.Headers = some b → a ≠ b) ∧
  (∀ a b, (ctx.Response.bind fun r => r.Header) = some a → ctx.Headers = some b → a ≠ b)

/-- The values of the last entry of a reply header list whose name has canonical
form `c`, if any entry has. -/
def lastValuesFor (c : String) : List (String × List String) → Option (List String)
  | [] => none
  | (key, values) :: rest =>
    match lastValuesFor c rest with
    | some later => some later
    | none => if CanonicalMIMEHeaderKey key = c then some values else none

/-- A call a client makes on an executor. -/
inductive ExecutorCall where
  | addPolicy (policy : Option Policy)
  | execute (ctx : Option PolicyContext)
  | clear

/-- The executor after one call.  `AddPolicy` and `Clear` assign `e.policies`;
`Execute` only ranges over `e.policies` and assigns nothing to `e`, whatever it
returns, so the executor after it is `e`. -/
def Executor.afterCall (e : Executor) : ExecutorCall → Executor
  | .addPolicy policy => (e.AddPolicy policy).2
  | .execute _ => e
  | .clear => e.Clear

/-- The executor after a series of calls. -/
def Executor.afterCalls (e : Executor) (calls : List ExecutorCall) : Executor :=
  calls.foldl Executor.afterCall e

/-- Every policy of the executor's sequence passes `Validate`. -/
def Executor.allValid (e : Executor) : Prop :=
  ∀ p ∈ e.policies, p.Validate = none

instance Executor.allValidDecidable (e : Executor) : Decidable e.allValid :=
  inferInstanceAs (Decidable (∀ p ∈ e.policies, p.Validate = none))

/-- The body stream of the target a flow selects: the request's for `request`, the
response's for `response`, none for any other flow. -/
def targetBody (flow : Flow) (ctx : PolicyContext) : Option Body :=
  if flow = "request" then ctx.Request.bind fun r => r.Body
  else if flow = "response" then ctx.Response.bind fun r => r.Body
  else none

/-! ## Sample inputs -/

/-- A service that answers nothing: every call to it fails in transport. -/
def deadServices : Services :=
  { jsonMarshal := fun _ => .ok []
    httpNewRequest := fun m u b => .ok { Method := m, URL := u, Header := Header.empty, Body := b }
    clientDo := fun _ _ => .error (.new "connection refused")
    jsonUnmarshal := fun _ => .error (.new "unexpected end of JSON input") }

/-- A service that answers every call with status 200 and a body that decodes to
`resp`. -/
def replyServices (resp : InterceptorResponse) : Services :=
  { jsonMarshal := fun _ => .ok []
    httpNewRequest := fun m u b => .ok { Method := m, URL := u, Header := Header.empty, Body := b }
    clientDo := fun _ _ => .ok { StatusCode := 200, Body := { pending := [], failure := none } }
    jsonUnmarshal := fun _ => .ok resp }

/-- A context that has only generic headers, none set. -/
def genericContext : PolicyContext :=
  { Request := none, Response := none, Headers := some Header.empty, Metadata := none }

/-- A request whose body delivers two bytes and then breaks off with an error. -/
def brokenBodyContext : PolicyContext :=
  { Request := some
      { Method := "POST"
        URL := some { Path := "/orders" }
        Header := some Header.empty
        Body := some { pending := [104, 105], failure := some (.new "unexpected EOF") } }
    Response := none
    Headers := none
    Metadata := none }

/-- A request without headers set, and no response. -/
def plainRequestContext : PolicyContext :=
  { Request := some
      { Method := "GET", URL := some { Path := "/users" }, Header := some Header.empty,
        Body := none }
    Response := none
    Headers := none
    Metadata := none }

/-- A context with all three header stores: a request carrying `X-Internal-Token` and
the body `hello`, a response carrying `Server`, and empty generic headers. -/
def fullContext : PolicyContext :=
  { Request := some
      { Method := "GET"
        URL := some { Path := "/users" }
        Header := some (Header.empty.Set "X-Internal-Token" "secret")
        Body := some { pending := [104, 101, 108, 108, 111], failure := none } }
    Response := some { Header := some (Header.empty.Set "Server" "backend"), Body := none }
    Headers := some Header.empty
    Metadata := none }

/-- A context with a request and generic headers but no response. -/
def noResponseContext : PolicyContext :=
  { Request := some
      { Method := "GET", URL := some { Path := "/users" }, Header := some Header.empty,
        Body := none }
    Response := none
    Headers := some Header.empty
    Metadata := none }

/-- A request with headers but without URL (and without body), as the literal
`&http.Request{Method: "GET", Header: http.Header{}}` builds it. -/
def noUrlContext : PolicyContext :=
  { Request := some { Method := "GET", URL := none, Header := some Header.empty, Body := none }
    Response := none
    Headers := none
    Metadata := none }

/-- A context by reference whose three header maps are three map objects (0 for the
request, 1 for the response, 2 for the generic headers). -/
def separateContext : ContextRef :=
  { Request := some
      { Method := "GET", URL := some { Path := "/users" }, Header := some 0, Body := none }
    Response := some { Header := some 1, Body := none }
    Headers := some 2
    Metadata := none }

/-- A context by reference whose request and generic headers are one and the same
map object, as `h := http.Header{}; &PolicyContext{Request: &http.Request{Header: h},
Headers: h}` builds it. -/
def sharedContext : ContextRef :=
  { Request := some
      { Method := "GET", URL := some { Path := "/users" }, Header := some 0, Body := none }
    Response := none
    Headers := some 0
    Metadata := none }

/-- Map objects that are all empty. -/
def emptyMaps : MapRef → Header := fun _ => Header.empty

/-- The policy that sets `X-Request-ID` on the request. -/
def addRequestId : AddHeaderPolicy := NewAddHeaderPolicy "X-Request-ID" "12345" RequestFlow

/-- The policy that sets `X-Gateway` on the request. -/
def addGateway : AddHeaderPolicy := NewAddHeaderPolicy "X-Gateway" "api-platform" RequestFlow

/-- The policy that removes `X-Internal-Token` from the response. -/
def removeTokenFromResponse : RemoveHeaderPolicy :=
  NewRemoveHeaderPolicy "X-Internal-Token" ResponseFlow

/-- An add-header policy with an empty header name, which `Validate` rejects. -/
def addUnnamed : AddHeaderPolicy := NewAddHeaderPolicy "" "value" RequestFlow

/-! ## Lemmas on header maps and flow routing -/

theorem Header.entry_Set_self (h : Header) (key value : String) :
    (h.Set key value).entry (CanonicalMIMEHeaderKey key) = some [value] := by
  simp [Header.Set, Header.entry]

theorem Header.entry_Del_self (h : Header) (key : String) :
    (h.Del key).entry (CanonicalMIMEHeaderKey key) = none := by
  simp [Header.Del, Header.entry]

theorem Header.entry_Set_other (h : Header) (key value k : String)
    (hk : k ≠ CanonicalMIMEHeaderKey key) : (h.Set key value).entry k = h.entry k := by
  simp [Header.Set, Header.entry, hk]

theorem Header.entry_Del_other (h : Header) (key k : String)
    (hk : k ≠ CanonicalMIMEHeaderKey key) : (h.Del key).entry k = h.entry k := by
  simp [Header.Del, Header.entry, hk]

theorem Header.entry_Add_other (h : Header) (key value k : String)
    (hk : k ≠ CanonicalMIMEHeaderKey key) : (h.Add key value).entry k = h.entry k := by
  simp [Header.Add, Header.entry, hk]

theorem selectedStore_eq_of_storeOf (f g : Flow) (ctx : PolicyContext)
    (hfg : storeOf f = storeOf g) : selectedStore f ctx = selectedStore g ctx := by
  unfold storeOf at hfg
  unfold selectedStore
  by_cases hf1 : f = "request" <;> by_cases hf2 : f = "response" <;>
    by_cases hg1 : g = "request" <;> by_cases hg2 : g = "response" <;>
    simp_all

theorem selectedStore_withFlowHeaders_same (f g : Flow) (ctx : PolicyContext) (h h1 : Header)
    (hfg : storeOf f = storeOf g) (hsel : selectedStore f ctx = some h) :
    selectedStore g (ctx.withFlowHeaders f h1) = some h1 := by
  rw [← selectedStore_eq_of_storeOf f g _ hfg]
  unfold selectedStore at hsel ⊢
  unfold PolicyContext.withFlowHeaders RequestFlow ResponseFlow
  by_cases hf1 : f = "request"
  · cases hr : ctx.Request <;> simp_all [PolicyContext.withRequestHeader]
  · by_cases hf2 : f = "response"
    · cases hr : ctx.Response <;> simp_all [PolicyContext.withResponseHeader]
    · simp_all [PolicyContext.withHeaders]

theorem headerPolicy_execute_eq (q : HeaderPolicy) (ctx : PolicyContext) :
    q.Execute (some ctx) =
      match selectedStore q.Flow ctx with
      | none => (.err (.new "no headers available in context"), some ctx)
      | some h => (.ok (), some (ctx.withFlowHeaders q.Flow (q.change h))) := by
  cases q with
  | add p =>
    simp only [HeaderPolicy.Execute, HeaderPolicy.Flow, HeaderPolicy.change,
      AddHeaderPolicy.Execute, selectedStore, RequestFlow, ResponseFlow]
    by_cases hf1 : p.Flow = "request"
    · cases hr : ctx.Request <;> simp [hf1]
    · by_cases hf2 : p.Flow = "response"
      · cases hr : ctx.Response <;> simp [hf1, hf2]
      · simp [hf1, hf2]
  | remove p =>
    simp only [HeaderPolicy.Execute, HeaderPolicy.Flow, HeaderPolicy.change,
      RemoveHeaderPolicy.Execute, selectedStore, RequestFlow, ResponseFlow]
    by_cases hf1 : p.Flow = "request"
    · cases hr : ctx.Request <;> simp [hf1]
    · by_cases hf2 : p.Flow = "response"
      · cases hr : ctx.Response <;> simp [hf1, hf2]
      · simp [hf1, hf2]

theorem headerPolicy_toPolicy_execute (q : HeaderPolicy) (ctx : PolicyContext) :
    q.toPolicy.Execute ctx =
      match selectedStore q.Flow ctx with
      | none => (.err (.new "no headers available in context"), ctx)
      | some h => (.ok (), ctx.withFlowHeaders q.Flow (q.change h)) := by
  have h := headerPolicy_execute_eq q ctx
  cases q with
  | add p =>
    simp only [HeaderPolicy.toPolicy, AddHeaderPolicy.toPolicy, onContext]
    simp only [HeaderPolicy.Execute] at h
    rw [h]
    cases selectedStore (HeaderPolicy.add p).Flow ctx <;> rfl
  | remove p =>
    simp only [HeaderPolicy.toPolicy, RemoveHeaderPolicy.toPolicy, onContext]
    simp only [HeaderPolicy.Execute] at h
    rw [h]
    cases selectedStore (HeaderPolicy.remove p).Flow ctx <;> rfl

theorem withFlowHeaders_twice (ctx : PolicyContext) (f : Flow) (a b : Header) :
    (ctx.withFlowHeaders f a).withFlowHeaders f b = ctx.withFlowHeaders f b := by
  unfold PolicyContext.withFlowHeaders RequestFlow ResponseFlow
  by_cases hf1 : f = "request"
  · cases hr : ctx.Request <;> simp [hf1, PolicyContext.withRequestHeader, hr]
  · by_cases hf2 : f = "response"
    · cases hr : ctx.Response <;> simp [hf1, hf2, PolicyContext.withResponseHeader, hr]
    · simp [hf1, hf2, PolicyContext.withHeaders]

theorem withFlowHeaders_metadata (ctx : PolicyContext) (f : Flow) (a : Header) :
    (ctx.withFlowHeaders f a).Metadata = ctx.Metadata := by
  unfold PolicyContext.withFlowHeaders RequestFlow ResponseFlow
  by_cases hf1 : f = "request"
  · simp [hf1, PolicyContext.withRequestHeader]
  · by_cases hf2 : f = "response"
    · simp [hf2, PolicyContext.withResponseHeader]
    · simp [hf1, hf2, PolicyContext.withHeaders]

theorem headerPolicy_change_twice (q : HeaderPolicy) (h : Header) :
    q.change (q.change h) = q.change h := by
  cases q with
  | add p =>
    funext k
    by_cases hk : k = CanonicalMIMEHeaderKey p.HeaderName <;>
      simp [HeaderPolicy.change, Header.Set, hk]
  | remove p =>
    funext k
    by_cases hk : k = CanonicalMIMEHeaderKey p.HeaderName <;>
      simp [HeaderPolicy.change, Header.Del, hk]

theorem headerPolicy_change_other (q : HeaderPolicy) (h : Header) (k : String)
    (hk : k ≠ CanonicalMIMEHeaderKey q.HeaderName) : (q.change h).entry k = h.entry k := by
  cases q with
  | add p => exact Header.entry_Set_other h _ _ k hk
  | remove p => exact Header.entry_Del_other h _ k hk

/-! ## Lemmas on the interceptor policy -/

theorem foldl_Add_entry (key c : String) (values : List String) :
    ∀ h : Header,
      (values.foldl (fun acc value => acc.Add key value) h).entry c =
        if c = CanonicalMIMEHeaderKey key then
          (if values = [] then h.entry c else some ((h.entry c).getD [] ++ values))
        else h.entry c := by
  induction values with
  | nil => intro h; simp
  | cons v vs ih =>
    intro h
    rw [List.foldl_cons, ih]
    by_cases hc : c = CanonicalMIMEHeaderKey key
    · by_cases hvs : vs = [] <;> simp [hc, hvs, Header.Add, Header.entry]
    · simp [hc, Header.Add, Header.entry]

theorem applyReplyHeaders_entry (c : String) (R : List (String × List String)) :
    ∀ h : Header,
      (applyReplyHeaders R h).entry c =
        match lastValuesFor c R with
        | some values => if values = [] then none else some values
        | none => h.entry c := by
  induction R with
  | nil => intro h; rfl
  | cons e rest ih =>
    intro h
    obtain ⟨key, values⟩ := e
    rw [applyReplyHeaders, ih, lastValuesFor]
    cases hl : lastValuesFor c rest with
    | some later => rfl
    | none =>
      simp only [foldl_Add_entry]
      by_cases hc : c = CanonicalMIMEHeaderKey key
      · subst hc
        by_cases hvs : values = [] <;> simp [hvs, Header.Del, Header.entry]
      · have hc2 : ¬ CanonicalMIMEHeaderKey key = c := fun e => hc e.symm
        simp [hc, hc2, Header.Del, Header.entry]

theorem lastValuesFor_eq_none (c : String) (R : List (String × List String))
    (hc : ∀ e ∈ R, CanonicalMIMEHeaderKey e.1 ≠ c) : lastValuesFor c R = none := by
  induction R with
  | nil => rfl
  | cons e rest ih =>
    obtain ⟨key, values⟩ := e
    have h1 : CanonicalMIMEHeaderKey key ≠ c := hc (key, values) (List.mem_cons_self _ _)
    simp [lastValuesFor, ih (fun x hx => hc x (List.mem_cons_of_mem _ hx)), h1]

theorem lastValuesFor_of_mem (R : List (String × List String))
    (hd : (R.map fun e => CanonicalMIMEHeaderKey e.1).Nodup) (key : String)
    (values : List String) (hm : (key, values) ∈ R) :
    lastValuesFor (CanonicalMIMEHeaderKey key) R = some values := by
  induction R with
  | nil => cases hm
  | cons e rest ih =>
    obtain ⟨k0, v0⟩ := e
    rw [List.map_cons, List.nodup_cons] at hd
    obtain ⟨hnot, hrest⟩ := hd
    rcases List.mem_cons.mp hm with heq | hin
    · have hk : k0 = key := (Prod.mk.inj heq).1.symm
      have hv : v0 = values := (Prod.mk.inj heq).2.symm
      subst hk; subst hv
      have hnone : lastValuesFor (CanonicalMIMEHeaderKey k0) rest = none := by
        apply lastValuesFor_eq_none
        intro x hx hcx
        exact hnot (List.mem_map.mpr ⟨x, hx, hcx⟩)
      simp [lastValuesFor, hnone]
    · simp [lastValuesFor, ih hrest hin]

theorem afterSwitch_of_sent (sv : Services) (p : InterceptorPolicy) (c : PolicyContext)
    (req : Option Request) (headers : Option Header) (body : Bytes)
    (snap : InterceptorRequest) (resp : InterceptorResponse)
    (hsent : (p.afterSwitch sv c req headers body).sent = some snap)
    (hreply : p.callInterceptor sv snap = .ok resp) :
    ∃ h, headers = some h ∧
      p.afterSwitch sv c req headers body =
        ⟨.ok (), some (c.withFlowHeaders p.Flow (applyReplyHeaders resp.Headers h)),
          some snap⟩ := by
  unfold InterceptorPolicy.afterSwitch at hsent ⊢
  cases headers with
  | none => simp at hsent
  | some h =>
    refine ⟨h, rfl, ?_⟩
    cases req with
    | none =>
      simp only at hsent ⊢
      cases hcall : p.callInterceptor sv
          { Headers := some h, Body := body, Method := "", Path := "" } <;>
        rw [hcall] at hsent <;> simp only [Option.some.injEq] at hsent <;>
        subst hsent <;> rw [hcall] at hreply <;> simp_all
    | some r =>
      cases hu : r.URL with
      | none => simp [hu] at hsent
      | some u =>
        simp only [hu] at hsent ⊢
        cases hcall : p.callInterceptor sv
            { Headers := some h, Body := body, Method := r.Method, Path := u.Path } <;>
          rw [hcall] at hsent <;> simp only [Option.some.injEq] at hsent <;>
          subst hsent <;> rw [hcall] at hreply <;> simp_all

theorem execute_reaches_call (sv : Services) (p : InterceptorPolicy) (ctx : PolicyContext)
    (snap : InterceptorRequest)
    (hsent : (p.Execute sv (some ctx)).sent = some snap) :
    ∃ ctxM req h body,
      p.Execute sv (some ctx) = p.afterSwitch sv ctxM req (some h) body ∧
      selectedStore p.Flow ctx = some h ∧ selectedStore p.Flow ctxM = some h := by
  unfold InterceptorPolicy.Execute at hsent ⊢
  unfold selectedStore
  unfold RequestFlow ResponseFlow at hsent ⊢
  by_cases hf1 : p.Flow = "request"
  · simp only [hf1, if_true] at hsent ⊢
    cases hr : ctx.Request with
    | none => simp [hr] at hsent
    | some req =>
      simp only [hr] at hsent ⊢
      cases hb : req.Body with
      | none =>
        simp only [hb] at hsent ⊢
        cases hh : req.Header with
        | none => simp [hh, InterceptorPolicy.afterSwitch] at hsent
        | some h => exact ⟨ctx, some req, h, [], rfl, by simp [hh], by simp [hr, hh]⟩
      | some stream =>
        simp only [hb, ioReadAll] at hsent ⊢
        cases hfail : stream.failure with
        | some err => simp [hfail] at hsent
        | none =>
          simp only [hfail] at hsent ⊢
          cases hh : req.Header with
          | none => simp [hh, InterceptorPolicy.afterSwitch] at hsent
          | some h => exact ⟨_, _, h, _, rfl, by simp [hh], by simp [hh]⟩
  · by_cases hf2 : p.Flow = "response"
    · have hne : ¬ ("response" = "request") := by decide
      simp only [hf2, hne, if_true, if_false] at hsent ⊢
      cases hr : ctx.Response with
      | none => simp [hr] at hsent
      | some resp =>
        simp only [hr] at hsent ⊢
        cases hb : resp.Body with
        | none =>
          simp only [hb] at hsent ⊢
          cases hh : resp.Header with
          | none => simp [hh, InterceptorPolicy.afterSwitch] at hsent
          | some h => exact ⟨ctx, none, h, [], rfl, by simp [hh], by simp [hr, hh]⟩
        | some stream =>
          simp only [hb, ioReadAll] at hsent ⊢
          cases hfail : stream.failure with
          | some err => simp [hfail] at hsent
          | none =>
            simp only [hfail] at hsent ⊢
            cases hh : resp.Header with
            | none => simp [hh, InterceptorPolicy.afterSwitch] at hsent
            | some h => exact ⟨_, _, h, _, rfl, by simp [hh], by simp [hh]⟩
    · simp only [hf1, hf2, if_false] at hsent ⊢
      cases hh : ctx.Headers with
      | none => simp [hh, InterceptorPolicy.afterSwitch] at hsent
      | some h => exact ⟨ctx, none, h, [], rfl, rfl, hh⟩

theorem withFlowHeaders_bodies (c : PolicyContext) (flow : Flow) (h : Header) :
    ((c.withFlowHeaders flow h).Request.bind fun r => r.Body) = (c.Request.bind fun r => r.Body) ∧
    ((c.withFlowHeaders flow h).Response.bind fun r => r.Body)
      = (c.Response.bind fun r => r.Body) := by
  unfold PolicyContext.withFlowHeaders RequestFlow ResponseFlow
  by_cases hf1 : flow = "request"
  · cases hr : c.Request <;> simp [hf1, PolicyContext.withRequestHeader, hr]
  · by_cases hf2 : flow = "response"
    · cases hr : c.Response <;> simp [hf2, PolicyContext.withResponseHeader, hr]
    · simp [hf1, hf2, PolicyContext.withHeaders]

theorem afterCall_bodies (p : InterceptorPolicy) (c : PolicyContext) (h : Header)
    (body : Bytes) (interceptorReq : InterceptorRequest) (hb : interceptorReq.Body = body)
    (called : Res InterceptorResponse) :
    ∃ c1 : PolicyContext,
      (match called with
        | .err err =>
          (⟨.err (.wrap "interceptor service call failed: " err), some c,
            some interceptorReq⟩ : InterceptorRun)
        | .fault what => ⟨.fault what, some c, some interceptorReq⟩
        | .ok interceptorResp =>
          ⟨.ok (),
            some (c.withFlowHeaders p.Flow (applyReplyHeaders interceptorResp.Headers h)),
            some interceptorReq⟩).ctx = some c1 ∧
      (c1.Request.bind fun r => r.Body) = (c.Request.bind fun r => r.Body) ∧
      (c1.Response.bind fun r => r.Body) = (c.Response.bind fun r => r.Body) ∧
      ∀ snap : InterceptorRequest,
        (match called with
          | .err err =>
            (⟨.err (.wrap "interceptor service call failed: " err), some c,
              some interceptorReq⟩ : InterceptorRun)
          | .fault what => ⟨.fault what, some c, some interceptorReq⟩
          | .ok interceptorResp =>
            ⟨.ok (),
              some (c.withFlowHeaders p.Flow (applyReplyHeaders interceptorResp.Headers h)),
              some interceptorReq⟩).sent = some snap → snap.Body = body := by
  cases called with
  | ok resp =>
    refine ⟨_, rfl, (withFlowHeaders_bodies c _ _).1, (withFlowHeaders_bodies c _ _).2, ?_⟩
    intro snap hs
    rw [← Option.some.inj hs]; exact hb
  | err e =>
    refine ⟨c, rfl, rfl, rfl, ?_⟩
    intro snap hs
    rw [← Option.some.inj hs]; exact hb
  | fault w =>
    refine ⟨c, rfl, rfl, rfl, ?_⟩
    intro snap hs
    rw [← Option.some.inj hs]; exact hb

theorem afterSwitch_bodies (sv : Services) (p : InterceptorPolicy) (c : PolicyContext)
    (req : Option Request) (headers : Option Header) (body : Bytes) :
    ∃ c1, (p.afterSwitch sv c req headers body).ctx = some c1 ∧
      (c1.Request.bind fun r => r.Body) = (c.Request.bind fun r => r.Body) ∧
      (c1.Response.bind fun r => r.Body) = (c.Response.bind fun r => r.Body) ∧
      ∀ snap, (p.afterSwitch sv c req headers body).sent = some snap → snap.Body = body := by
  unfold InterceptorPolicy.afterSwitch
  cases headers with
  | none => exact ⟨c, rfl, rfl, rfl, fun snap hs => by cases hs⟩
  | some h =>
    cases req with
    | none => exact afterCall_bodies p c h body _ rfl _
    | some r =>
      cases hu : r.URL with
      | none =>
        simp only [hu]
        exact ⟨c, rfl, rfl, rfl, fun snap hs => by cases hs⟩
      | some u =>
        simp only [hu]
        exact afterCall_bodies p c h body _ rfl _

theorem afterSwitch_sent_eq (sv : Services) (p : InterceptorPolicy) (c : PolicyContext)
    (req : Option Request) (h : Header) (body : Bytes) :
    (p.afterSwitch sv c req (some h) body).sent =
      match req with
      | none => some { Headers := some h, Body := body, Method := "", Path := "" }
      | some r =>
        match r.URL with
        | none => none
        | some u => some { Headers := some h, Body := body, Method := r.Method, Path := u.Path } := by
  unfold InterceptorPolicy.afterSwitch
  cases req with
  | none =>
    simp only
    cases p.callInterceptor sv { Headers := some h, Body := body, Method := "", Path := "" } <;>
      rfl
  | some r =>
    cases hu : r.URL with
    | none => simp only [hu]
    | some u =>
      simp only [hu]
      cases p.callInterceptor sv
        { Headers := some h, Body := body, Method := r.Method, Path := u.Path } <;> rfl

theorem afterSwitch_of_failed_call (sv : Services) (p : InterceptorPolicy) (c : PolicyContext)
    (req : Option Request) (h : Header) (body : Bytes)
    (snap : InterceptorRequest) (e : GoError)
    (hsent : (p.afterSwitch sv c req (some h) body).sent = some snap)
    (hfail : p.callInterceptor sv snap = .err e) :
    p.afterSwitch sv c req (some h) body =
      ⟨.err (.wrap "interceptor service call failed: " e), some c, some snap⟩ := by
  rw [afterSwitch_sent_eq] at hsent
  unfold InterceptorPolicy.afterSwitch
  cases req with
  | none =>
    simp only [Option.some.injEq] at hsent
    subst hsent
    simp only [hfail]
  | some r =>
    cases hu : r.URL with
    | none => simp [hu] at hsent
    | some u =>
      simp only [hu, Option.some.injEq] at hsent
      subst hsent
      simp only [hu, hfail]

theorem callInterceptor_failure_reasons (sv : Services) (p : InterceptorPolicy)
    (snap : InterceptorRequest) (reqBody : Bytes) (httpReq : OutRequest) (client : Client)
    (hm : sv.jsonMarshal snap = .ok reqBody)
    (hn : sv.httpNewRequest "POST" p.ServiceURL reqBody = .ok httpReq)
    (hc : p.HTTPClient = some client) :
    (∀ terr,
      sv.clientDo client
          { httpReq with Header := httpReq.Header.Set "Content-Type" "application/json" }
        = .error terr →
      p.callInterceptor sv snap
        = .err (.wrap "failed to call interceptor service: " terr)) ∧
    (∀ reply,
      sv.clientDo client
          { httpReq with Header := httpReq.Header.Set "Content-Type" "application/json" }
        = .ok reply →
      reply.StatusCode ≠ 200 →
      p.callInterceptor sv snap
        = .err (.new ("interceptor service returned status " ++ toString reply.StatusCode))) ∧
    (∀ reply derr,
      sv.clientDo client
          { httpReq with Header := httpReq.Header.Set "Content-Type" "application/json" }
        = .ok reply →
      reply.StatusCode = 200 → (ioReadAll reply.Body).2.1 = none →
      sv.jsonUnmarshal (ioReadAll reply.Body).1 = .error derr →
      p.callInterceptor sv snap = .err (.wrap "failed to unmarshal response: " derr)) := by
  refine ⟨?_, ?_, ?_⟩
  · intro terr hd
    simp [InterceptorPolicy.callInterceptor, hm, hn, hc, hd]
  · intro reply hd hs
    simp [InterceptorPolicy.callInterceptor, hm, hn, hc, hd, StatusOK, hs]
  · intro reply derr hd hs hr hu
    simp only [ioReadAll] at hr hu
    simp [InterceptorPolicy.callInterceptor, hm, hn, hc, hd, StatusOK, hs, ioReadAll, hr, hu]

theorem afterCalls_allValid (calls : List ExecutorCall) :
    ∀ e : Executor, e.allValid → (e.afterCalls calls).allValid := by
  induction calls with
  | nil => intro e he; exact he
  | cons c cs ih =>
    intro e he
    have hstep : (e.afterCall c).allValid := by
      cases c with
      | addPolicy policy =>
        cases policy with
        | none => exact he
        | some q =>
          cases hq : q.Validate with
          | some err => simpa [Executor.afterCall, Executor.AddPolicy, hq] using he
          | none =>
            intro x hx
            simp only [Executor.afterCall, Executor.AddPolicy, hq, List.mem_append,
              List.mem_singleton] at hx
            rcases hx with hx | hx
            · exact he x hx
            · rw [hx]; exact hq
      | execute ctx => exact he
      | clear => intro x hx; cases hx
    exact ih _ hstep

theorem snapshot_when_resolved (sv : Services) (p : InterceptorPolicy)
    (ctx : PolicyContext) (h : Header)
    (hsel : selectedStore p.Flow ctx = some h)
    (hclean : ∀ stream, targetBody p.Flow ctx = some stream → (ioReadAll stream).2.1 = none)
    (hurl : p.Flow = RequestFlow → ∀ req, ctx.Request = some req → req.URL ≠ none) :
    ∃ snap, (p.Execute sv (some ctx)).sent = some snap ∧
      snap.Headers = some h ∧
      (∀ stream, targetBody p.Flow ctx = some stream → snap.Body = (ioReadAll stream).1) ∧
      (targetBody p.Flow ctx = none → snap.Body = []) ∧
      (p.Flow ≠ RequestFlow → p.Flow ≠ ResponseFlow → snap.Body = []) ∧
      (p.Flow = RequestFlow → ∀ req u, ctx.Request = some req → req.URL = some u →
        snap.Method = req.Method ∧ snap.Path = u.Path) ∧
      (p.Flow ≠ RequestFlow → snap.Method = "" ∧ snap.Path = "") := by
  unfold selectedStore at hsel
  unfold targetBody at hclean ⊢
  unfold RequestFlow at hurl ⊢
  unfold ResponseFlow
  by_cases hf1 : p.Flow = "request"
  · simp only [hf1, if_true] at hsel hclean ⊢
    cases hr : ctx.Request with
    | none => simp [hr] at hsel
    | some req =>
      have hh : req.Header = some h := by simpa [hr] using hsel
      cases hu : req.URL with
      | none => exact absurd hu (hurl hf1 req hr)
      | some u =>
        cases hb : req.Body with
        | none =>
          refine ⟨{ Headers := some h, Body := [], Method := req.Method, Path := u.Path },
            ?_, rfl, ?_, ?_, ?_, ?_, ?_⟩
          · simp [InterceptorPolicy.Execute, RequestFlow, hf1, hr, hb, hh, afterSwitch_sent_eq,
              hu]
          · intro stream hs; simp [hr, hb] at hs
          · intro _; rfl
          · intro _ _; rfl
          · intro _ req2 u2 hr2 hu2
            simp only [hr, Option.some.injEq] at hr2
            subst hr2
            rw [hu] at hu2
            simp only [Option.some.injEq] at hu2
            subst hu2
            exact ⟨rfl, rfl⟩
          · intro hne; exact absurd rfl hne
        | some stream =>
          have hc : stream.failure = none := by
            have := hclean stream (by simp [hr, hb])
            simpa [ioReadAll] using this
          refine ⟨⟨some h, stream.pending, req.Method, u.Path⟩, ?_, rfl, ?_, ?_, ?_, ?_, ?_⟩
          · simp [InterceptorPolicy.Execute, RequestFlow, hf1, hr, hb, hh, ioReadAll, hc,
              afterSwitch_sent_eq, hu]
          · intro s2 hs
            simp only [hr, hb, Option.some_bind, Option.some.injEq] at hs
            subst hs
            rfl
          · intro hn; simp [hr, hb] at hn
          · intro hne; exact absurd rfl hne
          · intro _ req2 u2 hr2 hu2
            simp only [hr, Option.some.injEq] at hr2
            subst hr2
            rw [hu] at hu2
            simp only [Option.some.injEq] at hu2
            subst hu2
            exact ⟨rfl, rfl⟩
          · intro hne; exact absurd rfl hne
  · by_cases hf2 : p.Flow = "response"
    · have hne : ¬ ("response" = "request") := by decide
      simp only [hf2, hne, if_true, if_false] at hsel hclean ⊢
      cases hr : ctx.Response with
      | none => simp [hr] at hsel
      | some resp =>
        have hh : resp.Header = some h := by simpa [hr] using hsel
        cases hb : resp.Body with
        | none =>
          refine ⟨{ Headers := some h, Body := [], Method := "", Path := "" },
            ?_, rfl, ?_, ?_, ?_, ?_, ?_⟩
          · simp [InterceptorPolicy.Execute, RequestFlow, ResponseFlow, hf2, hr, hb, hh,
              afterSwitch_sent_eq]
          · intro stream hs; simp [hr, hb] at hs
          · intro _; rfl
          · intro _ _; rfl
          · intro hreq; exact hreq.elim
          · intro _; exact ⟨rfl, rfl⟩
        | some stream =>
          have hc : stream.failure = none := by
            have := hclean stream (by simp [hr, hb])
            simpa [ioReadAll] using this
          refine ⟨{ Headers := some h, Body := stream.pending, Method := "", Path := "" },
            ?_, rfl, ?_, ?_, ?_, ?_, ?_⟩
          · simp [InterceptorPolicy.Execute, RequestFlow, ResponseFlow, hf2, hr, hb, hh,
              ioReadAll, hc, afterSwitch_sent_eq]
          · intro s2 hs
            simp only [hr, hb, Option.some_bind, Option.some.injEq] at hs
            subst hs
            rfl
          · intro hn; simp [hr, hb] at hn
          · intro _ hne2; exact absurd rfl hne2
          · intro hreq; exact hreq.elim
          · intro _; exact ⟨rfl, rfl⟩
    · simp only [hf1, hf2, if_false] at hsel hclean ⊢
      refine ⟨{ Headers := some h, Body := [], Method := "", Path := "" },
        ?_, rfl, ?_, ?_, ?_, ?_, ?_⟩
      · simp [InterceptorPolicy.Execute, RequestFlow, ResponseFlow, hf1, hf2, hsel,
          afterSwitch_sent_eq]
      · intro stream hs; cases hs
      · intro _; rfl
      · intro _ _; rfl
      · intro hreq; exact hreq.elim
      · intro _; exact ⟨rfl, rfl⟩

theorem sent_requires (sv : Services) (p : InterceptorPolicy) (ctx : PolicyContext)
    (snap : InterceptorRequest) (hsent : (p.Execute sv (some ctx)).sent = some snap) :
    (∃ h, selectedStore p.Flow ctx = some h) ∧
    (∀ stream, targetBody p.Flow ctx = some stream → (ioReadAll stream).2.1 = none) ∧
    (p.Flow = RequestFlow → ∀ req, ctx.Request = some req → req.URL ≠ none) := by
  unfold InterceptorPolicy.Execute at hsent
  unfold selectedStore targetBody
  unfold RequestFlow ResponseFlow at hsent
  unfold RequestFlow
  by_cases hf1 : p.Flow = "request"
  · simp only [hf1, if_true] at hsent ⊢
    cases hr : ctx.Request with
    | none => simp [hr] at hsent
    | some req =>
      simp only [hr] at hsent
      cases hh : req.Header with
      | none =>
        cases hb : req.Body with
        | none => simp [hb, hh, InterceptorPolicy.afterSwitch] at hsent
        | some stream =>
          cases hfail : stream.failure <;>
            simp [hb, hh, ioReadAll, hfail, InterceptorPolicy.afterSwitch] at hsent
      | some h =>
        cases hu : req.URL with
        | none =>
          cases hb : req.Body with
          | none => simp [hb, hh, afterSwitch_sent_eq, hu] at hsent
          | some stream =>
            cases hfail : stream.failure <;>
              simp [hb, hh, ioReadAll, hfail, afterSwitch_sent_eq, hu] at hsent
        | some u =>
          refine ⟨⟨h, by simp [hh]⟩, ?_, ?_⟩
          · intro stream hs
            simp only [Option.some_bind] at hs
            cases hfail : stream.failure with
            | none => simp [ioReadAll, hfail]
            | some err => simp [hs, ioReadAll, hfail] at hsent
          · intro _ req2 hr2
            simp only [Option.some.injEq] at hr2
            subst hr2
            simp [hu]
  · by_cases hf2 : p.Flow = "response"
    · have hne : ¬ ("response" = "request") := by decide
      simp only [hf2, hne, if_true, if_false] at hsent ⊢
      cases hr : ctx.Response with
      | none => simp [hr] at hsent
      | some resp =>
        simp only [hr] at hsent
        cases hh : resp.Header with
        | none =>
          cases hb : resp.Body with
          | none => simp [hb, hh, InterceptorPolicy.afterSwitch] at hsent
          | some stream =>
            cases hfail : stream.failure <;>
              simp [hb, hh, ioReadAll, hfail, InterceptorPolicy.afterSwitch] at hsent
        | some h =>
          refine ⟨⟨h, by simp [hh]⟩, ?_, ?_⟩
          · intro stream hs
            simp only [Option.some_bind] at hs
            cases hfail : stream.failure with
            | none => simp [ioReadAll, hfail]
            | some err => simp [hs, ioReadAll, hfail] at hsent
          · intro hreq; exact hreq.elim
    · simp only [hf1, hf2, if_false] at hsent ⊢
      cases hh : ctx.Headers with
      | none => simp [hh, InterceptorPolicy.afterSwitch] at hsent
      | some h =>
        refine ⟨⟨h, rfl⟩, ?_, ?_⟩
        · intro stream hs; cases hs
        · intro hreq; exact hreq.elim

/-- The configured `Timeout` plays no part in `Execute`: `callInterceptor` never reads
`p.Timeout`, the call is bounded by the client's own timeout alone. -/
theorem execute_ignores_timeout (sv : Services) (p : InterceptorPolicy) (t : Int)
    (ctx : Option PolicyContext) :
    InterceptorPolicy.Execute sv { p with Timeout := t } ctx = p.Execute sv ctx := by
  cases ctx <;> rfl

/-- Where the overlay does not depend on the visiting order: when the names of the
reply have pairwise different canonical forms, any two orders of visiting them
produce the same store. -/
theorem applyReplyHeaders_perm_of_distinct (R R1 : List (String × List String)) (h : Header)
    (hperm : R.Perm R1) (hd : (R.map fun e => CanonicalMIMEHeaderKey e.1).Nodup) :
    applyReplyHeaders R h = applyReplyHeaders R1 h := by
  have hd1 : (R1.map fun e => CanonicalMIMEHeaderKey e.1).Nodup :=
    (hperm.map _).nodup_iff.mp hd
  funext c
  have e1 := applyReplyHeaders_entry c R h
  have e2 := applyReplyHeaders_entry c R1 h
  simp only [Header.entry] at e1 e2
  rw [e1, e2]
  have hlast : lastValuesFor c R = lastValuesFor c R1 := by
    by_cases hex : ∃ e ∈ R, CanonicalMIMEHeaderKey e.1 = c
    · obtain ⟨⟨k, vs⟩, hm, hc⟩ := hex
      subst hc
      rw [lastValuesFor_of_mem R hd k vs hm,
        lastValuesFor_of_mem R1 hd1 k vs (hperm.mem_iff.mp hm)]
    · push_neg at hex
      rw [lastValuesFor_eq_none c R hex,
        lastValuesFor_eq_none c R1 (fun e he => hex e (hperm.mem_iff.mpr he))]
  rw [hlast]

theorem callInterceptor_fault (sv : Services) (p : InterceptorPolicy)
    (snap : InterceptorRequest) (w : String)
    (hf : p.callInterceptor sv snap = .fault w) : p.HTTPClient = none := by
  unfold InterceptorPolicy.callInterceptor at hf
  cases hm : sv.jsonMarshal snap with
  | error err => simp [hm] at hf
  | ok reqBody =>
    cases hn : sv.httpNewRequest "POST" p.ServiceURL reqBody with
    | error err => simp [hm, hn] at hf
    | ok httpReq =>
      cases hc : p.HTTPClient with
      | none => rfl
      | some client =>
        exfalso
        simp only [hm, hn, hc] at hf
        cases hd : sv.clientDo client
            { httpReq with Header := httpReq.Header.Set "Content-Type" "application/json" } with
        | error err => simp [hd] at hf
        | ok resp =>
          simp only [hd] at hf
          by_cases hs : resp.StatusCode ≠ StatusOK
          · simp [hs] at hf
          · simp only [hs, if_false, ioReadAll] at hf
            cases hr : resp.Body.failure with
            | some err => simp [hr] at hf
            | none =>
              simp only [hr] at hf
              cases hu : sv.jsonUnmarshal resp.Body.pending <;> simp [hu] at hf

theorem afterSwitch_fault (sv : Services) (p : InterceptorPolicy) (c : PolicyContext)
    (req : Option Request) (headers : Option Header) (body : Bytes) (w : String)
    (hf : (p.afterSwitch sv c req headers body).result = .fault w) :
    (∃ r, req = some r ∧ r.URL = none) ∨ p.HTTPClient = none := by
  unfold InterceptorPolicy.afterSwitch at hf
  cases headers with
  | none => simp at hf
  | some h =>
    cases req with
    | none =>
      simp only at hf
      cases hcall : p.callInterceptor sv
          { Headers := some h, Body := body, Method := "", Path := "" } with
      | ok resp => simp [hcall] at hf
      | err e => simp [hcall] at hf
      | fault w1 => exact Or.inr (callInterceptor_fault sv p _ w1 hcall)
    | some r =>
      cases hu : r.URL with
      | none => exact Or.inl ⟨r, rfl, hu⟩
      | some u =>
        simp only [hu] at hf
        cases hcall : p.callInterceptor sv
            { Headers := some h, Body := body, Method := r.Method, Path := u.Path } with
        | ok resp => simp [hcall] at hf
        | err e => simp [hcall] at hf
        | fault w1 => exact Or.inr (callInterceptor_fault sv p _ w1 hcall)

/-- The only two ways `InterceptorPolicy.Execute` faults on a non-nil context: in
request flow on a request without URL, and with a policy without HTTP client. -/
theorem execute_fault_causes (sv : Services) (p : InterceptorPolicy) (ctx : PolicyContext)
    (w : String) (hf : (p.Execute sv (some ctx)).result = .fault w) :
    (p.Flow = RequestFlow ∧ ∃ req, ctx.Request = some req ∧ req.URL = none) ∨
      p.HTTPClient = none := by
  unfold InterceptorPolicy.Execute at hf
  by_cases hf1 : p.Flow = RequestFlow
  · simp only [hf1, if_true] at hf
    cases hr : ctx.Request with
    | none => simp [hr] at hf
    | some req =>
      simp only [hr] at hf
      cases hb : req.Body with
      | none =>
        simp only [hb] at hf
        rcases afterSwitch_fault sv p _ _ _ _ w hf with ⟨r, hreq, hu⟩ | hc
        · have hrr : req = r := Option.some.inj hreq
          subst hrr
          exact Or.inl ⟨hf1, req, rfl, hu⟩
        · exact Or.inr hc
      | some stream =>
        simp only [hb, ioReadAll] at hf
        cases hfail : stream.failure with
        | some err => simp [hfail] at hf
        | none =>
          simp only [hfail] at hf
          rcases afterSwitch_fault sv p _ _ _ _ w hf with ⟨r, hreq, hu⟩ | hc
          · have hrr := Option.some.inj hreq
            rw [← hrr] at hu
            exact Or.inl ⟨hf1, req, rfl, hu⟩
          · exact Or.inr hc
  · simp only [hf1, if_false] at hf
    by_cases hf2 : p.Flow = ResponseFlow
    · simp only [hf2, if_true] at hf
      cases hr : ctx.Response with
      | none => simp [hr] at hf
      | some resp =>
        simp only [hr] at hf
        cases hb : resp.Body with
        | none =>
          simp only [hb] at hf
          rcases afterSwitch_fault sv p _ _ _ _ w hf with ⟨r, hreq, _⟩ | hc
          · cases hreq
          · exact Or.inr hc
        | some stream =>
          simp only [hb, ioReadAll] at hf
          cases hfail : stream.failure with
          | some err => simp [hfail] at hf
          | none =>
            simp only [hfail] at hf
            rcases afterSwitch_fault sv p _ _ _ _ w hf with ⟨r, hreq, _⟩ | hc
            · cases hreq
            · exact Or.inr hc
    · simp only [hf2, if_false] at hf
      rcases afterSwitch_fault sv p _ _ _ _ w hf with ⟨r, hreq, _⟩ | hc
      · cases hreq
      · exact Or.inr hc

/-! ## Lemmas on the executor loop -/

theorem loop_cons_ok (p : Policy) (ps : List Policy) (ctx : PolicyContext)
    (h : (p.Execute ctx).1 = .ok ()) :
    Executor.loop (p :: ps) ctx =
      ⟨(Executor.loop ps (p.Execute ctx).2).result, (Executor.loop ps (p.Execute ctx).2).ctx,
        p :: (Executor.loop ps (p.Execute ctx).2).calls⟩ := by
  rcases hx : p.Execute ctx with ⟨r, c1⟩
  rw [hx] at h
  simp only at h
  subst h
  simp [Executor.loop, hx]

theorem loop_cons_err (p : Policy) (ps : List Policy) (ctx : PolicyContext) (err : GoError)
    (h : (p.Execute ctx).1 = .err err) :
    Executor.loop (p :: ps) ctx =
      ⟨.err (.wrap ("policy " ++ p.Name ++ " execution failed: ") err),
        some (p.Execute ctx).2, [p]⟩ := by
  rcases hx : p.Execute ctx with ⟨r, c1⟩
  rw [hx] at h
  simp only at h
  subst h
  simp [Executor.loop, hx]

theorem loop_append_err (pre post : List Policy) (pk : Policy) (err : GoError) :
    ∀ ctx : PolicyContext, succeedInTurn pre ctx →
      (pk.Execute (effects pre ctx)).1 = .err err →
      Executor.loop (pre ++ pk :: post) ctx =
        ⟨.err (.wrap ("policy " ++ pk.Name ++ " execution failed: ") err),
          some (pk.Execute (effects pre ctx)).2, pre ++ [pk]⟩ := by
  induction pre with
  | nil =>
    intro ctx _ hk
    simpa [effects] using loop_cons_err pk post ctx err hk
  | cons p ps ih =>
    intro ctx hpre hk
    obtain ⟨h1, h2⟩ := hpre
    have := ih (p.Execute ctx).2 h2 hk
    rw [List.cons_append, loop_cons_ok p _ ctx h1, this]
    simp [effects]

theorem loop_all_ok (ps : List Policy) :
    ∀ ctx : PolicyContext, succeedInTurn ps ctx →
      Executor.loop ps ctx = ⟨.ok (), some (effects ps ctx), ps⟩ := by
  induction ps with
  | nil => intro ctx _; rfl
  | cons p ps ih =>
    intro ctx hps
    obtain ⟨h1, h2⟩ := hps
    rw [loop_cons_ok p _ ctx h1, ih _ h2]
    simp [effects]

theorem effects_append (ps qs : List Policy) :
    ∀ ctx : PolicyContext, effects (ps ++ qs) ctx = effects qs (effects ps ctx) := by
  induction ps with
  | nil => intro ctx; rfl
  | cons p ps ih => intro ctx; simp [effects, ih]

theorem succeedInTurn_append (ps qs : List Policy) :
    ∀ ctx : PolicyContext,
      succeedInTurn (ps ++ qs) ctx ↔ succeedInTurn ps ctx ∧ succeedInTurn qs (effects ps ctx) := by
  induction ps with
  | nil => intro ctx; simp [succeedInTurn, effects]
  | cons p ps ih => intro ctx; simp [succeedInTurn, effects, ih, and_assoc]

theorem headerPolicy_establishes (q : HeaderPolicy) (ctx : PolicyContext)
    (hok : (q.toPolicy.Execute ctx).1 = .ok ()) :
    ∃ h1, selectedStore q.Flow (q.toPolicy.Execute ctx).2 = some h1 ∧
      h1.entry (CanonicalMIMEHeaderKey q.HeaderName) = q.written := by
  rw [headerPolicy_toPolicy_execute] at hok ⊢
  cases hsel : selectedStore q.Flow ctx with
  | none => simp [hsel] at hok
  | some h =>
    refine ⟨q.change h, ?_, ?_⟩
    · exact selectedStore_withFlowHeaders_same _ _ ctx h _ rfl hsel
    · cases q with
      | add p => exact Header.entry_Set_self h _ _
      | remove p => exact Header.entry_Del_self h _

/-! ## Lemmas on contexts by reference -/

theorem headerPolicy_ExecuteRef_eq (q : HeaderPolicy) (ctx : ContextRef)
    (maps : MapRef → Header) :
    q.ExecuteRef (some ctx) maps =
      match selectedRef q.Flow ctx with
      | none => (.err (.new "no headers available in context"), maps)
      | some r => (.ok (), writeMap maps r (q.change (maps r))) := by
  cases q with
  | add p =>
    simp only [HeaderPolicy.ExecuteRef, HeaderPolicy.Flow, HeaderPolicy.change,
      AddHeaderPolicy.ExecuteRef, selectedRef, RequestFlow, ResponseFlow]
    by_cases hf1 : p.Flow = "request"
    · cases hr : ctx.Request <;> simp [hf1]
    · by_cases hf2 : p.Flow = "response"
      · cases hr : ctx.Response <;> simp [hf1, hf2]
      · simp [hf1, hf2]
  | remove p =>
    simp only [HeaderPolicy.ExecuteRef, HeaderPolicy.Flow, HeaderPolicy.change,
      RemoveHeaderPolicy.ExecuteRef, selectedRef, RequestFlow, ResponseFlow]
    by_cases hf1 : p.Flow = "request"
    · cases hr : ctx.Request <;> simp [hf1]
    · by_cases hf2 : p.Flow = "response"
      · cases hr : ctx.Response <;> simp [hf1, hf2]
      · simp [hf1, hf2]

theorem headerPolicy_toPolicyRef_execute (q : HeaderPolicy) (m : Memory) :
    q.toPolicyRef.Execute m =
      match selectedRef q.Flow m.ctx with
      | none => (.err (.new "no headers available in context"), m)
      | some r =>
        (.ok (), { ctx := m.ctx, maps := writeMap m.maps r (q.change (m.maps r)) }) := by
  have h := headerPolicy_ExecuteRef_eq q m.ctx m.maps
  cases q with
  | add p =>
    simp only [HeaderPolicy.toPolicyRef, AddHeaderPolicy.toPolicyRef]
    simp only [HeaderPolicy.ExecuteRef] at h
    rw [h]
    cases selectedRef (HeaderPolicy.add p).Flow m.ctx <;> rfl
  | remove p =>
    simp only [HeaderPolicy.toPolicyRef, RemoveHeaderPolicy.toPolicyRef]
    simp only [HeaderPolicy.ExecuteRef] at h
    rw [h]
    cases selectedRef (HeaderPolicy.remove p).Flow m.ctx <;> rfl

theorem loopRef_cons_ok (p : PolicyRef) (ps : List PolicyRef) (m : Memory)
    (h : (p.Execute m).1 = .ok ()) :
    ExecutorRef.loop (p :: ps) m =
      ⟨(ExecutorRef.loop ps (p.Execute m).2).result, (ExecutorRef.loop ps (p.Execute m).2).ctx,
        (ExecutorRef.loop ps (p.Execute m).2).maps,
        p :: (ExecutorRef.loop ps (p.Execute m).2).calls⟩ := by
  rcases hx : p.Execute m with ⟨r, m1⟩
  rw [hx] at h
  simp only at h
  subst h
  simp [ExecutorRef.loop, hx]

theorem loopRef_all_ok (ps : List PolicyRef) :
    ∀ m : Memory, succeedInTurnRef ps m →
      ExecutorRef.loop ps m
        = ⟨.ok (), some (effectsRef ps m).ctx, (effectsRef ps m).maps, ps⟩ := by
  induction ps with
  | nil => intro m _; rfl
  | cons p ps ih =>
    intro m hps
    obtain ⟨h1, h2⟩ := hps
    rw [loopRef_cons_ok p _ m h1, ih _ h2]
    simp [effectsRef]

theorem effectsRef_append (ps qs : List PolicyRef) :
    ∀ m : Memory, effectsRef (ps ++ qs) m = effectsRef qs (effectsRef ps m) := by
  induction ps with
  | nil => intro m; rfl
  | cons p ps ih => intro m; simp [effectsRef, ih]

theorem succeedInTurnRef_append (ps qs : List PolicyRef) :
    ∀ m : Memory,
      succeedInTurnRef (ps ++ qs) m ↔
        succeedInTurnRef ps m ∧ succeedInTurnRef qs (effectsRef ps m) := by
  induction ps with
  | nil => intro m; simp [succeedInTurnRef, effectsRef]
  | cons p ps ih => intro m; simp [succeedInTurnRef, effectsRef, ih, and_assoc]

theorem headerPolicyRef_writes (q : HeaderPolicy) (m : Memory) (r : MapRef)
    (hok : (q.toPolicyRef.Execute m).1 = .ok ())
    (hsel : selectedRef q.Flow m.ctx = some r) :
    (q.toPolicyRef.Execute m).2.ctx = m.ctx ∧
    ((q.toPolicyRef.Execute m).2.maps r).entry (CanonicalMIMEHeaderKey q.HeaderName)
      = q.written := by
  rw [headerPolicy_toPolicyRef_execute, hsel]
  refine ⟨rfl, ?_⟩
  simp only [writeMap, if_true]
  cases q with
  | add p => exact Header.entry_Set_self _ _ _
  | remove p => exact Header.entry_Del_self _ _

theorem headerPolicyRef_keeps (x : HeaderPolicy) (m : Memory) (r : MapRef) (k : String)
    (hok : (x.toPolicyRef.Execute m).1 = .ok ())
    (hother : ¬ (selectedRef x.Flow m.ctx = some r ∧ CanonicalMIMEHeaderKey x.HeaderName = k)) :
    (x.toPolicyRef.Execute m).2.ctx = m.ctx ∧
    ((x.toPolicyRef.Execute m).2.maps r).entry k = (m.maps r).entry k := by
  rw [headerPolicy_toPolicyRef_execute] at hok ⊢
  cases hx : selectedRef x.Flow m.ctx with
  | none => simp [hx] at hok
  | some r1 =>
    refine ⟨rfl, ?_⟩
    simp only [writeMap]
    by_cases hr : r = r1
    · subst hr
      have hk : k ≠ CanonicalMIMEHeaderKey x.HeaderName := fun e => hother ⟨hx, e.symm⟩
      simp only [if_true]
      exact headerPolicy_change_other x (m.maps r) k hk
    · simp [hr]

theorem headerPoliciesRef_keep (post : List HeaderPolicy) (c : ContextRef) (r : MapRef)
    (k : String)
    (hother : ∀ x ∈ post,
      ¬ (selectedRef x.Flow c = some r ∧ CanonicalMIMEHeaderKey x.HeaderName = k)) :
    ∀ m : Memory, m.ctx = c → succeedInTurnRef (post.map HeaderPolicy.toPolicyRef) m →
      (effectsRef (post.map HeaderPolicy.toPolicyRef) m).ctx = c ∧
      ((effectsRef (post.map HeaderPolicy.toPolicyRef) m).maps r).entry k
        = (m.maps r).entry k := by
  induction post with
  | nil => intro m hc _; exact ⟨hc, rfl⟩
  | cons x xs ih =>
    intro m hc hrun
    obtain ⟨h1, h2⟩ := hrun
    have hx := headerPolicyRef_keeps x m r k h1
      (by rw [hc]; exact hother x (List.mem_cons_self _ _))
    have hrest := ih (fun y hy => hother y (List.mem_cons_of_mem _ hy))
      (x.toPolicyRef.Execute m).2 (by rw [hx.1, hc]) h2
    exact ⟨hrest.1, by rw [← hx.2]; exact hrest.2⟩

theorem map_writeMap_other (maps : MapRef → Header) (r : MapRef) (h : Header)
    (o : Option MapRef) (hne : ∀ b, o = some b → r ≠ b) :
    o.map (writeMap maps r h) = o.map maps := by
  cases o with
  | none => rfl
  | some b =>
    have hb : ¬ b = r := fun e => hne b rfl e.symm
    simp [writeMap, hb]

/-- On a context whose header maps are pairwise different map objects, a header
policy does on the context by reference what it does on the context by value. -/
theorem headerPolicy_ExecuteRef_view (q : HeaderPolicy) (m : Memory)
    (hun : m.ctx.unshared) :
    q.Execute (some m.view)
      = ((q.ExecuteRef (some m.ctx) m.maps).1,
          some (Memory.view { ctx := m.ctx, maps := (q.ExecuteRef (some m.ctx) m.maps).2 })) := by
  rw [headerPolicy_execute_eq, headerPolicy_ExecuteRef_eq]
  obtain ⟨ctx, maps⟩ := m
  obtain ⟨h12, h13, h23⟩ := hun
  simp only at h12 h13 h23
  unfold selectedStore selectedRef
  by_cases hf1 : q.Flow = "request"
  · simp only [hf1, if_true]
    cases hr : ctx.Request with
    | none => simp [Memory.view, hr]
    | some req =>
      cases hh : req.Header with
      | none => simp [Memory.view, hr, hh]
      | some r =>
        have e2 := map_writeMap_other maps r (q.change (maps r))
          (ctx.Response.bind fun x => x.Header)
          (fun b hb => h12 r b (by simp [hr, hh]) hb)
        have e3 := map_writeMap_other maps r (q.change (maps r)) ctx.Headers
          (fun b hb => h13 r b (by simp [hr, hh]) hb)
        cases hresp : ctx.Response with
        | none =>
          simp [Memory.view, hr, hh, hresp, PolicyContext.withFlowHeaders, RequestFlow,
            PolicyContext.withRequestHeader, writeMap, e3]
        | some resp =>
          simp only [hresp, Option.some_bind] at e2
          simp [Memory.view, hr, hh, hresp, PolicyContext.withFlowHeaders, RequestFlow,
            PolicyContext.withRequestHeader, writeMap, e3, e2]
  · by_cases hf2 : q.Flow = "response"
    · have hne : ¬ ("response" = "request") := by decide
      simp only [hf2, hne, if_true, if_false]
      cases hresp : ctx.Response with
      | none => simp [Memory.view, hresp]
      | some resp =>
        cases hh : resp.Header with
        | none => simp [Memory.view, hresp, hh]
        | some r =>
          have e1 := map_writeMap_other maps r (q.change (maps r))
            (ctx.Request.bind fun x => x.Header)
            (fun b hb => (h12 b r hb (by simp [hresp, hh])).symm)
          have e3 := map_writeMap_other maps r (q.change (maps r)) ctx.Headers
            (fun b hb => h23 r b (by simp [hresp, hh]) hb)
          cases hr : ctx.Request with
          | none =>
            simp [Memory.view, hr, hh, hresp, PolicyContext.withFlowHeaders, RequestFlow,
              ResponseFlow, PolicyContext.withResponseHeader, writeMap, e3]
          | some req =>
            simp only [hr, Option.some_bind] at e1
            simp [Memory.view, hr, hh, hresp, PolicyContext.withFlowHeaders, RequestFlow,
              ResponseFlow, PolicyContext.withResponseHeader, writeMap, e3, e1]
    · simp only [hf1, hf2, if_false]
      cases hh : ctx.Headers with
      | none => simp [Memory.view, hh]
      | some r =>
        have e1 := map_writeMap_other maps r (q.change (maps r))
          (ctx.Request.bind fun x => x.Header)
          (fun b hb => (h13 b r hb hh).symm)
        have e2 := map_writeMap_other maps r (q.change (maps r))
          (ctx.Response.bind fun x => x.Header)
          (fun b hb => (h23 b r hb hh).symm)
        cases hr : ctx.Request <;> cases hresp : ctx.Response <;>
          simp_all [Memory.view, PolicyContext.withFlowHeaders, RequestFlow,
            ResponseFlow, PolicyContext.withHeaders, writeMap]

/-! ## Executor: failure of a policy (C1) -/

/-- C1, as stated, fails: an executor holding one InterceptorPolicy (request flow),
run on a request whose body breaks off after two bytes.  The policy is the first to
fail and the executor returns its error under the policy's name, but the context is
not the one the (zero) earlier policies left: the body stream, which held two bytes,
has been drained by the failing policy. -/
theorem c1_failing_policy_leaves_its_own_changes :
    (Executor.Execute
        { policies := [(NewInterceptorPolicy "http://svc" RequestFlow).toPolicy deadServices] }
        (some brokenBodyContext)).result
      = .err (.wrap "policy Interceptor execution failed: "
          (.wrap "failed to read request body: " (.new "unexpected EOF"))) ∧
    ((brokenBodyContext.Request.bind fun r => r.Body).map fun b => b.pending) = some [104, 105] ∧
    (((Executor.Execute
        { policies := [(NewInterceptorPolicy "http://svc" RequestFlow).toPolicy deadServices] }
        (some brokenBodyContext)).ctx.bind fun c => c.Request.bind fun r => r.Body).map
          fun b => b.pending) = some [] ∧
    (Executor.Execute
        { policies := [(NewInterceptorPolicy "http://svc" RequestFlow).toPolicy deadServices] }
        (some brokenBodyContext)).ctx ≠ some (effects [] brokenBodyContext) := by
  refine ⟨by decide, by decide, by decide, ?_⟩
  intro h
  have h2 := congrArg
    (fun o : Option PolicyContext =>
      ((o.bind fun c => c.Request.bind fun r => r.Body).map fun b => b.pending)) h
  revert h2
  decide

/-- C1, amended: when the policies before `pk` succeed in turn and `pk` returns the
error `err`, `Executor.Execute` returns the error that wraps `err` with the message
`policy <pk.Name> execution failed: ` in front; the context is the one `pk` left when
it ran on the context carrying the effects of the earlier policies in order, so it
is exactly those effects whenever `pk` changes nothing before failing; and the
policies invoked are exactly the earlier ones and `pk`, the later ones never. -/
theorem executor_stops_at_first_failure (pre post : List Policy) (pk : Policy)
    (ctx : PolicyContext) (err : GoError)
    (hpre : succeedInTurn pre ctx)
    (hk : (pk.Execute (effects pre ctx)).1 = .err err) :
    (Executor.Execute { policies := pre ++ pk :: post } (some ctx)).result
      = .err (.wrap ("policy " ++ pk.Name ++ " execution failed: ") err) ∧
    (GoError.wrap ("policy " ++ pk.Name ++ " execution failed: ") err).Error
      = "policy " ++ pk.Name ++ " execution failed: " ++ err.Error ∧
    (Executor.Execute { policies := pre ++ pk :: post } (some ctx)).ctx
      = some (pk.Execute (effects pre ctx)).2 ∧
    ((pk.Execute (effects pre ctx)).2 = effects pre ctx →
      (Executor.Execute { policies := pre ++ pk :: post } (some ctx)).ctx
        = some (effects pre ctx)) ∧
    (Executor.Execute { policies := pre ++ pk :: post } (some ctx)).calls = pre ++ [pk] := by
  have h := loop_append_err pre post pk err ctx hpre hk
  simp only [Executor.Execute, h]
  refine ⟨trivial, rfl, trivial, ?_, trivial⟩
  intro hsame
  rw [hsame]

/-- C1 (amended) at a concrete executor: add `X-Request-ID` to the request, remove a
header from the absent response, add `X-Gateway`.  The second policy fails without
changing anything, so the context carries the effect of the first policy alone;
exactly the first two were invoked. -/
theorem executor_stops_at_first_failure_witness :
    succeedInTurn [addRequestId.toPolicy] plainRequestContext ∧
    (removeTokenFromResponse.toPolicy.Execute
        (effects [addRequestId.toPolicy] plainRequestContext)).1
      = .err (.new "no headers available in context") ∧
    (Executor.Execute
        { policies := [addRequestId.toPolicy] ++
            removeTokenFromResponse.toPolicy :: [addGateway.toPolicy] }
        (some plainRequestContext)).ctx
      = some (effects [addRequestId.toPolicy] plainRequestContext) ∧
    (Executor.Execute
        { policies := [addRequestId.toPolicy] ++
            removeTokenFromResponse.toPolicy :: [addGateway.toPolicy] }
        (some plainRequestContext)).calls
      = [addRequestId.toPolicy] ++ [removeTokenFromResponse.toPolicy] :=
  ⟨by decide, by decide,
    (executor_stops_at_first_failure [addRequestId.toPolicy] [addGateway.toPolicy]
      removeTokenFromResponse.toPolicy plainRequestContext
      (.new "no headers available in context") (by decide) (by decide)).2.2.2.1 rfl,
    (executor_stops_at_first_failure [addRequestId.toPolicy] [addGateway.toPolicy]
      removeTokenFromResponse.toPolicy plainRequestContext
      (.new "no headers available in context") (by decide) (by decide)).2.2.2.2⟩

/-! ## Executor: registration (C2, C3) -/

/-- C2: when `Validate` of a policy returns the error `verr`, `AddPolicy` returns an
error whose message is `policy validation failed: ` followed by the message of
`verr`, which it wraps, and `GetPolicies` is what it was; `AddPolicy(nil)` returns
the error `policy cannot be nil` and also leaves `GetPolicies` as it was. -/
theorem addPolicy_rejects_invalid (e : Executor) (p : Policy) (verr : GoError)
    (hv : p.Validate = some verr) :
    ((e.AddPolicy (some p)).1 = some (.wrap "policy validation failed: " verr) ∧
      (GoError.wrap "policy validation failed: " verr).Error
        = "policy validation failed: " ++ verr.Error ∧
      (GoError.wrap "policy validation failed: " verr).Unwrap = some verr ∧
      (e.AddPolicy (some p)).2.GetPolicies = e.GetPolicies) ∧
    ((e.AddPolicy none).1 = some (.new "policy cannot be nil") ∧
      (GoError.new "policy cannot be nil").Error = "policy cannot be nil" ∧
      (e.AddPolicy none).2.GetPolicies = e.GetPolicies) := by
  refine ⟨⟨?_, rfl, rfl, ?_⟩, rfl, rfl, rfl⟩ <;> simp [Executor.AddPolicy, hv]

/-- C2 at a concrete input: a fresh executor and an add-header policy with an empty
name. -/
theorem addPolicy_rejects_invalid_witness :
    addUnnamed.toPolicy.Validate = some (.new "header name cannot be empty") ∧
    (NewExecutor.AddPolicy (some addUnnamed.toPolicy)).1
      = some (.wrap "policy validation failed: " (.new "header name cannot be empty")) ∧
    (NewExecutor.AddPolicy (some addUnnamed.toPolicy)).2.GetPolicies = NewExecutor.GetPolicies :=
  ⟨by decide,
    (addPolicy_rejects_invalid NewExecutor addUnnamed.toPolicy
      (.new "header name cannot be empty") (by decide)).1.1,
    (addPolicy_rejects_invalid NewExecutor addUnnamed.toPolicy
      (.new "header name cannot be empty") (by decide)).1.2.2.2⟩

theorem addAll_getPolicies (ps : List Policy) :
    ∀ e : Executor, (∀ q ∈ ps, q.Validate = none) →
      (e.addAll ps).GetPolicies = e.GetPolicies ++ ps := by
  induction ps with
  | nil => intro e _; simp [Executor.addAll]
  | cons q qs ih =>
    intro e hq
    have hq1 : q.Validate = none := hq q (List.mem_cons_self _ _)
    have hq2 : ∀ r ∈ qs, r.Validate = none := fun r hr => hq r (List.mem_cons_of_mem _ hr)
    have := ih (e.AddPolicy (some q)).2 hq2
    simp only [Executor.addAll, List.foldl_cons] at this ⊢
    rw [this]
    simp [Executor.AddPolicy, hq1, Executor.GetPolicies]

/-- C3: when `Validate` of `p` succeeds, `AddPolicy(p)` returns no error and
`GetPolicies` afterwards is the old sequence followed by `p`: one longer, every old
entry at its old position, whether or not `p` was in it already; and after a series
of adds of policies that all validate, the sequence is the old one followed by the
added policies in the order they were added. -/
theorem addPolicy_appends_valid (e : Executor) (p : Policy) (ps : List Policy)
    (hv : p.Validate = none) (hvs : ∀ q ∈ ps, q.Validate = none) :
    (e.AddPolicy (some p)).1 = none ∧
    (e.AddPolicy (some p)).2.GetPolicies = e.GetPolicies ++ [p] ∧
    (e.AddPolicy (some p)).2.GetPolicies.length = e.GetPolicies.length + 1 ∧
    (∀ i, i < e.GetPolicies.length →
      (e.AddPolicy (some p)).2.GetPolicies[i]? = e.GetPolicies[i]?) ∧
    ((e.AddPolicy (some p)).2.AddPolicy (some p)).2.GetPolicies = e.GetPolicies ++ [p, p] ∧
    (e.addAll ps).GetPolicies = e.GetPolicies ++ ps := by
  have h1 : (e.AddPolicy (some p)).2.GetPolicies = e.GetPolicies ++ [p] := by
    simp [Executor.AddPolicy, hv, Executor.GetPolicies]
  refine ⟨by simp [Executor.AddPolicy, hv], h1, by simp [h1], ?_, ?_,
    addAll_getPolicies ps e hvs⟩
  · intro i hi
    rw [h1, List.getElem?_append_left hi]
  · simp [Executor.AddPolicy, hv, Executor.GetPolicies]

/-- C3 at a concrete input: two valid policies added to a fresh executor. -/
theorem addPolicy_appends_valid_witness :
    addRequestId.toPolicy.Validate = none ∧
    (∀ q ∈ [addGateway.toPolicy, addRequestId.toPolicy], q.Validate = none) ∧
    (NewExecutor.AddPolicy (some addRequestId.toPolicy)).2.GetPolicies
      = NewExecutor.GetPolicies ++ [addRequestId.toPolicy] ∧
    (NewExecutor.addAll [addGateway.toPolicy, addRequestId.toPolicy]).GetPolicies
      = NewExecutor.GetPolicies ++ [addGateway.toPolicy, addRequestId.toPolicy] :=
  ⟨by decide, by simp [AddHeaderPolicy.toPolicy, AddHeaderPolicy.Validate, addGateway,
      addRequestId, NewAddHeaderPolicy],
    (addPolicy_appends_valid NewExecutor addRequestId.toPolicy
      [addGateway.toPolicy, addRequestId.toPolicy] (by decide)
      (by simp [AddHeaderPolicy.toPolicy, AddHeaderPolicy.Validate, addGateway,
        addRequestId, NewAddHeaderPolicy])).2.1,
    (addPolicy_appends_valid NewExecutor addRequestId.toPolicy
      [addGateway.toPolicy, addRequestId.toPolicy] (by decide)
      (by simp [AddHeaderPolicy.toPolicy, AddHeaderPolicy.Validate, addGateway,
        addRequestId, NewAddHeaderPolicy])).2.2.2.2.2⟩

/-! ## Executor: execution in order (C4) -/

/-- C4, as stated, fails in its last part, on contexts by reference.  First chain, on
a context with three separate maps: set `X-Trace` to `a` with the empty flow, to `c`
with the empty flow, to `b` with flow `fault`.  The last entry that names the header
on the empty flow sets `c`, yet the generic map (object 2) ends with `b`, because
`fault` selects the same map.  Second chain, on a context whose request and generic
headers are one map (object 0): set `X-Trace` to `a` and then to `c` on the request,
remove it with the empty flow.  The last entry that names the header on flow
`request` sets `c`, yet the request's map ends without the header. -/
theorem c4_last_entry_of_a_flow_does_not_decide :
    (ExecutorRef.Execute
        { policies := [(HeaderPolicy.add ⟨"X-Trace", "a", ""⟩).toPolicyRef,
            (HeaderPolicy.add ⟨"X-Trace", "c", ""⟩).toPolicyRef,
            (HeaderPolicy.add ⟨"X-Trace", "b", FaultFlow⟩).toPolicyRef] }
        (some separateContext) emptyMaps).result = .ok () ∧
    separateContext.Headers = some 2 ∧
    ((ExecutorRef.Execute
        { policies := [(HeaderPolicy.add ⟨"X-Trace", "a", ""⟩).toPolicyRef,
            (HeaderPolicy.add ⟨"X-Trace", "c", ""⟩).toPolicyRef,
            (HeaderPolicy.add ⟨"X-Trace", "b", FaultFlow⟩).toPolicyRef] }
        (some separateContext) emptyMaps).maps 2).Values "X-Trace" = ["b"] ∧
    (ExecutorRef.Execute
        { policies := [(HeaderPolicy.add ⟨"X-Trace", "a", RequestFlow⟩).toPolicyRef,
            (HeaderPolicy.add ⟨"X-Trace", "c", RequestFlow⟩).toPolicyRef,
            (HeaderPolicy.remove ⟨"X-Trace", ""⟩).toPolicyRef] }
        (some sharedContext) emptyMaps).result = .ok () ∧
    (sharedContext.Request.bind fun r => r.Header) = some 0 ∧
    ((ExecutorRef.Execute
        { policies := [(HeaderPolicy.add ⟨"X-Trace", "a", RequestFlow⟩).toPolicyRef,
            (HeaderPolicy.add ⟨"X-Trace", "c", RequestFlow⟩).toPolicyRef,
            (HeaderPolicy.remove ⟨"X-Trace", ""⟩).toPolicyRef] }
        (some sharedContext) emptyMaps).maps 0).Values "X-Trace" = [] := by
  refine ⟨by decide, rfl, by decide, by decide, rfl, by decide⟩

/-- C4, amended, on contexts by reference: when every policy of the executor succeeds
in its turn on a non-nil context, `Executor.Execute` returns success, having invoked
the policies in sequence order, and the final context and map objects are the
left-to-right composition of the policies applied to the given ones.  In
particular, if the sequence ends with a header policy `q` (add or remove) that
writes the map object `r`, followed only by header policies none of which both
selects that same map object and names the same HTTP header, then the object `r`
ends with what `q` writes under that name: the one configured value for an add, no
entry for a remove, whatever the earlier policies did.  The flow decides the map
through the context: `request` the request's map, `response` the response's, every
other flow value the generic map, and two fields may hold one map. -/
theorem executor_applies_policies_in_order (ps : List PolicyRef) (m : Memory)
    (hrun : succeedInTurnRef ps m) :
    (ExecutorRef.Execute { policies := ps } (some m.ctx) m.maps).result = .ok () ∧
    (ExecutorRef.Execute { policies := ps } (some m.ctx) m.maps).ctx
      = some (effectsRef ps m).ctx ∧
    (ExecutorRef.Execute { policies := ps } (some m.ctx) m.maps).maps = (effectsRef ps m).maps ∧
    (ExecutorRef.Execute { policies := ps } (some m.ctx) m.maps).calls = ps ∧
    ∀ (pre : List PolicyRef) (q : HeaderPolicy) (post : List HeaderPolicy) (r : MapRef),
      ps = pre ++ q.toPolicyRef :: post.map HeaderPolicy.toPolicyRef →
      selectedRef q.Flow (effectsRef pre m).ctx = some r →
      (∀ x ∈ post, ¬ (selectedRef x.Flow (effectsRef pre m).ctx = some r ∧
        CanonicalMIMEHeaderKey x.HeaderName = CanonicalMIMEHeaderKey q.HeaderName)) →
      (effectsRef ps m).ctx = (effectsRef pre m).ctx ∧
      ((effectsRef ps m).maps r).entry (CanonicalMIMEHeaderKey q.HeaderName) = q.written ∧
      ((effectsRef ps m).maps r).Values q.HeaderName = q.written.getD [] := by
  have h := loopRef_all_ok ps m hrun
  have hm : ({ ctx := m.ctx, maps := m.maps } : Memory) = m := rfl
  simp only [ExecutorRef.Execute, hm, h]
  refine ⟨trivial, trivial, trivial, trivial, ?_⟩
  intro pre q post r hps hsel hlast
  subst hps
  rw [succeedInTurnRef_append] at hrun
  obtain ⟨_, hq, hpost⟩ := hrun
  have hw := headerPolicyRef_writes q (effectsRef pre m) r hq hsel
  have hk := headerPoliciesRef_keep post (effectsRef pre m).ctx r
    (CanonicalMIMEHeaderKey q.HeaderName) hlast
    (q.toPolicyRef.Execute (effectsRef pre m)).2 hw.1 hpost
  have hfin : effectsRef (pre ++ q.toPolicyRef :: post.map HeaderPolicy.toPolicyRef) m
      = effectsRef (post.map HeaderPolicy.toPolicyRef)
          (q.toPolicyRef.Execute (effectsRef pre m)).2 := by
    rw [effectsRef_append]; rfl
  rw [hfin]
  have hv := hk.2.trans hw.2
  refine ⟨hk.1, hv, ?_⟩
  simp only [Header.entry] at hv
  simp [Header.Values, hv]

/-- C4 (amended) at a concrete chain on the context whose request and generic headers
are one map (object 0): set `X-Token` to `a` on the request, remove `x-token` with
the empty flow, set `X-TOKEN` to `b` on the request, then remove a header of another
name with the empty flow.  The third policy is the last to write the header to that
map, which ends with the single value `b` for it. -/
theorem executor_applies_policies_in_order_witness :
    succeedInTurnRef
      ([(HeaderPolicy.add ⟨"X-Token", "a", RequestFlow⟩).toPolicyRef,
          (HeaderPolicy.remove ⟨"x-token", ""⟩).toPolicyRef] ++
        (HeaderPolicy.add ⟨"X-TOKEN", "b", RequestFlow⟩).toPolicyRef ::
          [HeaderPolicy.remove ⟨"X-Other", ""⟩].map HeaderPolicy.toPolicyRef)
      { ctx := sharedContext, maps := emptyMaps } ∧
    ((effectsRef
        ([(HeaderPolicy.add ⟨"X-Token", "a", RequestFlow⟩).toPolicyRef,
            (HeaderPolicy.remove ⟨"x-token", ""⟩).toPolicyRef] ++
          (HeaderPolicy.add ⟨"X-TOKEN", "b", RequestFlow⟩).toPolicyRef ::
            [HeaderPolicy.remove ⟨"X-Other", ""⟩].map HeaderPolicy.toPolicyRef)
        { ctx := sharedContext, maps := emptyMaps }).maps 0).Values "X-TOKEN" = ["b"] :=
  ⟨by decide,
    ((executor_applies_policies_in_order _ { ctx := sharedContext, maps := emptyMaps }
      (by decide)).2.2.2.2
      [(HeaderPolicy.add ⟨"X-Token", "a", RequestFlow⟩).toPolicyRef,
        (HeaderPolicy.remove ⟨"x-token", ""⟩).toPolicyRef]
      (HeaderPolicy.add ⟨"X-TOKEN", "b", RequestFlow⟩)
      [HeaderPolicy.remove ⟨"X-Other", ""⟩] 0 rfl (by decide) (by decide)).2.2⟩

/-! ## The header policies (C5 to C8) -/

/-- C5: on a non-nil context whose flow-selected header store is present,
`AddHeaderPolicy.Execute` succeeds, and afterwards that store returns the configured
value for the configured name (`Get`) and holds exactly that one value under it
(`Values`), whatever the name held before.  The name and the value need not be
non-empty for this. -/
theorem addHeader_sets_single_value (p : AddHeaderPolicy) (ctx : PolicyContext) (h : Header)
    (hsel : selectedStore p.Flow ctx = some h) :
    ∃ ctx1 h1, p.Execute (some ctx) = (.ok (), some ctx1) ∧
      selectedStore p.Flow ctx1 = some h1 ∧
      h1.Get p.HeaderName = p.HeaderValue ∧
      h1.Values p.HeaderName = [p.HeaderValue] ∧
      h1.entry (CanonicalMIMEHeaderKey p.HeaderName) = some [p.HeaderValue] := by
  have hx := headerPolicy_execute_eq (.add p) ctx
  simp only [HeaderPolicy.Execute, HeaderPolicy.Flow, hsel, HeaderPolicy.change] at hx
  refine ⟨_, h.Set p.HeaderName p.HeaderValue, hx,
    selectedStore_withFlowHeaders_same _ _ ctx h _ rfl hsel, ?_, ?_, ?_⟩ <;>
  simp [Header.Get, Header.Values, Header.Set, Header.entry]

/-- C5 at a concrete input: the request already holds three values for the header. -/
theorem addHeader_sets_single_value_witness :
    selectedStore RequestFlow
        { plainRequestContext with
          Request := some
            { Method := "GET", URL := none, Body := none,
              Header := some
                (((Header.empty.Add "x-api-version" "v0").Add "X-Api-Version" "v1").Add
                  "X-API-VERSION" "v2") } }
      = some (((Header.empty.Add "x-api-version" "v0").Add "X-Api-Version" "v1").Add
          "X-API-VERSION" "v2") ∧
    ((((Header.empty.Add "x-api-version" "v0").Add "X-Api-Version" "v1").Add
          "X-API-VERSION" "v2").Values "X-API-Version") = ["v0", "v1", "v2"] ∧
    ∃ ctx1 h1,
      (NewAddHeaderPolicy "X-API-Version" "v1.0" RequestFlow).Execute
          (some { plainRequestContext with
            Request := some
              { Method := "GET", URL := none, Body := none,
                Header := some
                  (((Header.empty.Add "x-api-version" "v0").Add "X-Api-Version" "v1").Add
                    "X-API-VERSION" "v2") } })
        = (.ok (), some ctx1) ∧
      selectedStore RequestFlow ctx1 = some h1 ∧
      h1.Get "X-API-Version" = "v1.0" ∧
      h1.Values "X-API-Version" = ["v1.0"] ∧
      h1.entry (CanonicalMIMEHeaderKey "X-API-Version") = some ["v1.0"] :=
  ⟨rfl, by decide,
    addHeader_sets_single_value (NewAddHeaderPolicy "X-API-Version" "v1.0" RequestFlow) _ _ rfl⟩

/-- C6: on a non-nil context whose flow-selected header store is present,
`RemoveHeaderPolicy.Execute` succeeds for every header name, and afterwards that
store has no value for the name (`Get` returns the empty string, `Values` is empty,
the entry is gone), whether the name held one value, several, or none before. -/
theorem removeHeader_leaves_no_value (p : RemoveHeaderPolicy) (ctx : PolicyContext)
    (h : Header) (hsel : selectedStore p.Flow ctx = some h) :
    ∃ ctx1 h1, p.Execute (some ctx) = (.ok (), some ctx1) ∧
      selectedStore p.Flow ctx1 = some h1 ∧
      h1.Get p.HeaderName = "" ∧
      h1.Values p.HeaderName = [] ∧
      h1.entry (CanonicalMIMEHeaderKey p.HeaderName) = none := by
  have hx := headerPolicy_execute_eq (.remove p) ctx
  simp only [HeaderPolicy.Execute, HeaderPolicy.Flow, hsel, HeaderPolicy.change] at hx
  refine ⟨_, h.Del p.HeaderName, hx,
    selectedStore_withFlowHeaders_same _ _ ctx h _ rfl hsel, ?_, ?_, ?_⟩ <;>
  simp [Header.Get, Header.Values, Header.Del, Header.entry]

/-- C6 at a concrete input: removing from the response a header it does not hold. -/
theorem removeHeader_leaves_no_value_witness :
    selectedStore ResponseFlow fullContext = some (Header.empty.Set "Server" "backend") ∧
    (Header.empty.Set "Server" "backend").Values "X-Internal-Token" = [] ∧
    ∃ ctx1 h1,
      removeTokenFromResponse.Execute (some fullContext) = (.ok (), some ctx1) ∧
      selectedStore removeTokenFromResponse.Flow ctx1 = some h1 ∧
      h1.Get removeTokenFromResponse.HeaderName = "" ∧
      h1.Values removeTokenFromResponse.HeaderName = [] ∧
      h1.entry (CanonicalMIMEHeaderKey removeTokenFromResponse.HeaderName) = none :=
  ⟨rfl, by decide, removeHeader_leaves_no_value removeTokenFromResponse fullContext _ rfl⟩

/-- C7: on a non-nil context in which the store selected by the flow is absent, that
is, request flow with no request or a request without header map, response flow
with no response or a response without header map, any other flow with no generic
headers, both `AddHeaderPolicy.Execute` and `RemoveHeaderPolicy.Execute` return the
error `no headers available in context` and leave the context as it was, whatever
the other stores are. -/
theorem header_policies_fail_without_store (name value : String) (flow : Flow)
    (ctx : PolicyContext)
    (habs : (flow = RequestFlow ∧
              (ctx.Request = none ∨ ∃ req, ctx.Request = some req ∧ req.Header = none)) ∨
            (flow = ResponseFlow ∧
              (ctx.Response = none ∨ ∃ resp, ctx.Response = some resp ∧ resp.Header = none)) ∨
            (flow ≠ RequestFlow ∧ flow ≠ ResponseFlow ∧ ctx.Headers = none)) :
    (NewAddHeaderPolicy name value flow).Execute (some ctx)
      = (.err (.new "no headers available in context"), some ctx) ∧
    (NewRemoveHeaderPolicy name flow).Execute (some ctx)
      = (.err (.new "no headers available in context"), some ctx) ∧
    (GoError.new "no headers available in context").Error = "no headers available in context" ∧
    selectedStore flow ctx = none := by
  have hsel : selectedStore flow ctx = none := by
    unfold selectedStore
    unfold RequestFlow ResponseFlow at habs
    rcases habs with ⟨hf, hr | ⟨req, hr, hh⟩⟩ | ⟨hf, hr | ⟨resp, hr, hh⟩⟩ | ⟨hf1, hf2, hh⟩ <;>
      simp_all
  have ha := headerPolicy_execute_eq (.add (NewAddHeaderPolicy name value flow)) ctx
  have hr := headerPolicy_execute_eq (.remove (NewRemoveHeaderPolicy name flow)) ctx
  simp only [HeaderPolicy.Execute, HeaderPolicy.Flow, NewAddHeaderPolicy,
    NewRemoveHeaderPolicy, hsel] at ha hr
  exact ⟨ha, hr, rfl, hsel⟩

/-- C7 at a concrete input: response flow on a context that has a request and
generic headers but no response. -/
theorem header_policies_fail_without_store_witness :
    noResponseContext.Response = none ∧
    (noResponseContext.Request.bind fun r => r.Header).isSome = true ∧
    noResponseContext.Headers.isSome = true ∧
    (NewAddHeaderPolicy "X-Custom-Header" "test-value" ResponseFlow).Execute
        (some noResponseContext)
      = (.err (.new "no headers available in context"), some noResponseContext) ∧
    (NewRemoveHeaderPolicy "X-Custom-Header" ResponseFlow).Execute (some noResponseContext)
      = (.err (.new "no headers available in context"), some noResponseContext) :=
  ⟨rfl, rfl, rfl,
    (header_policies_fail_without_store "X-Custom-Header" "test-value" ResponseFlow
      noResponseContext (Or.inr (Or.inl ⟨rfl, Or.inl rfl⟩))).1,
    (header_policies_fail_without_store "X-Custom-Header" "test-value" ResponseFlow
      noResponseContext (Or.inr (Or.inl ⟨rfl, Or.inl rfl⟩))).2.1⟩

/-- C8, as stated, fails: on the context whose request and generic headers are one
map (object 0), an add-header policy with the empty flow selects the generic
headers, and after `Execute` the request's headers, a non-selected store, hold the
new header too. -/
theorem c8_store_sharing_the_selected_map_changes :
    selectedRef "" sharedContext = some 0 ∧
    (sharedContext.Request.bind fun r => r.Header) = some 0 ∧
    (emptyMaps 0).Values "X-Custom-Header" = [] ∧
    ((HeaderPolicy.add (NewAddHeaderPolicy "X-Custom-Header" "test-value" "")).ExecuteRef
        (some sharedContext) emptyMaps).1 = .ok () ∧
    ((sharedContext.Request.bind fun r => r.Header).map fun r =>
      (((HeaderPolicy.add (NewAddHeaderPolicy "X-Custom-Header" "test-value" "")).ExecuteRef
        (some sharedContext) emptyMaps).2 r).Values "X-Custom-Header")
      = some ["test-value"] := by
  refine ⟨by decide, rfl, by decide, by decide, by decide⟩

/-- C8, amended, on contexts by reference: a header policy `q` (add or remove) with
flow `request` applies its `Set` or `Del` to the map object the request holds, with
flow `response` to the one the response holds, with any other flow value to the one
the generic headers hold, and succeeds when there is one; every map object other
than that one is as before, so each non-selected store that is a different map
object is identical before and after, while a field that holds the selected map
itself shows the change.  The policy assigns no field of the context. -/
theorem header_policies_route_by_flow (q : HeaderPolicy) (ctx : ContextRef)
    (maps : MapRef → Header) :
    (q.Flow = "request" →
      (∀ req r, ctx.Request = some req → req.Header = some r →
        (q.ExecuteRef (some ctx) maps).1 = .ok () ∧
        (q.ExecuteRef (some ctx) maps).2 r = q.change (maps r)) ∧
      (∀ r2, (ctx.Request.bind fun x => x.Header) ≠ some r2 →
        (q.ExecuteRef (some ctx) maps).2 r2 = maps r2)) ∧
    (q.Flow = "response" →
      (∀ resp r, ctx.Response = some resp → resp.Header = some r →
        (q.ExecuteRef (some ctx) maps).1 = .ok () ∧
        (q.ExecuteRef (some ctx) maps).2 r = q.change (maps r)) ∧
      (∀ r2, (ctx.Response.bind fun x => x.Header) ≠ some r2 →
        (q.ExecuteRef (some ctx) maps).2 r2 = maps r2)) ∧
    (q.Flow ≠ "request" → q.Flow ≠ "response" →
      (∀ r, ctx.Headers = some r →
        (q.ExecuteRef (some ctx) maps).1 = .ok () ∧
        (q.ExecuteRef (some ctx) maps).2 r = q.change (maps r)) ∧
      (∀ r2, ctx.Headers ≠ some r2 → (q.ExecuteRef (some ctx) maps).2 r2 = maps r2)) ∧
    (q.toPolicyRef.Execute { ctx := ctx, maps := maps }).2.ctx = ctx := by
  have hx := headerPolicy_ExecuteRef_eq q ctx maps
  have hp := headerPolicy_toPolicyRef_execute q { ctx := ctx, maps := maps }
  have hframe : ∀ r2, selectedRef q.Flow ctx ≠ some r2 →
      (q.ExecuteRef (some ctx) maps).2 r2 = maps r2 := by
    intro r2 hne
    rw [hx]
    cases hs : selectedRef q.Flow ctx with
    | none => rfl
    | some r =>
      have hr : ¬ r2 = r := fun e => hne (by rw [hs, e])
      simp [writeMap, hr]
  have hhit : ∀ r, selectedRef q.Flow ctx = some r →
      (q.ExecuteRef (some ctx) maps).1 = .ok () ∧
      (q.ExecuteRef (some ctx) maps).2 r = q.change (maps r) := by
    intro r hs
    rw [hx, hs]
    simp [writeMap]
  refine ⟨?_, ?_, ?_, ?_⟩
  · intro hf
    have hsel : selectedRef q.Flow ctx = ctx.Request.bind fun x => x.Header := by
      simp [selectedRef, hf]
    refine ⟨?_, fun r2 hne => hframe r2 (by rw [hsel]; exact hne)⟩
    intro req r hr hh
    exact hhit r (by rw [hsel, hr]; simpa using hh)
  · intro hf
    have hsel : selectedRef q.Flow ctx = ctx.Response.bind fun x => x.Header := by
      simp [selectedRef, hf]
    refine ⟨?_, fun r2 hne => hframe r2 (by rw [hsel]; exact hne)⟩
    intro resp r hr hh
    exact hhit r (by rw [hsel, hr]; simpa using hh)
  · intro hf1 hf2
    have hsel : selectedRef q.Flow ctx = ctx.Headers := by
      simp [selectedRef, hf1, hf2]
    exact ⟨fun r hr => hhit r (by rw [hsel, hr]),
      fun r2 hne => hframe r2 (by rw [hsel]; exact hne)⟩
  · rw [hp]
    cases selectedRef q.Flow ctx <;> rfl

/-- C8 (amended) at concrete inputs.  On the context with three separate maps an
add-header policy with flow `fault` writes the generic map (object 2) and leaves the
request's (object 0) and the response's (object 1) as they were; on the context
whose request and generic headers are one map, the same policy writes that map. -/
theorem header_policies_route_by_flow_witness :
    (FaultFlow ≠ "request" ∧ FaultFlow ≠ "response") ∧
    separateContext.Headers = some 2 ∧
    (((HeaderPolicy.add (NewAddHeaderPolicy "X-Custom-Header" "test-value" FaultFlow)).ExecuteRef
        (some separateContext) emptyMaps).1 = .ok () ∧
      ((HeaderPolicy.add (NewAddHeaderPolicy "X-Custom-Header" "test-value" FaultFlow)).ExecuteRef
        (some separateContext) emptyMaps).2 2
        = (HeaderPolicy.add (NewAddHeaderPolicy "X-Custom-Header" "test-value" FaultFlow)).change
            (emptyMaps 2)) ∧
    ((HeaderPolicy.add (NewAddHeaderPolicy "X-Custom-Header" "test-value" FaultFlow)).ExecuteRef
        (some separateContext) emptyMaps).2 0 = emptyMaps 0 ∧
    ((HeaderPolicy.add (NewAddHeaderPolicy "X-Custom-Header" "test-value" FaultFlow)).ExecuteRef
        (some separateContext) emptyMaps).2 1 = emptyMaps 1 ∧
    ((HeaderPolicy.add (NewAddHeaderPolicy "X-Custom-Header" "test-value" FaultFlow)).ExecuteRef
        (some sharedContext) emptyMaps).2 0
      = (HeaderPolicy.add (NewAddHeaderPolicy "X-Custom-Header" "test-value" FaultFlow)).change
          (emptyMaps 0) :=
  ⟨⟨by decide, by decide⟩, rfl,
    ((header_policies_route_by_flow
      (.add (NewAddHeaderPolicy "X-Custom-Header" "test-value" FaultFlow))
      separateContext emptyMaps).2.2.1 (by decide) (by decide)).1 2 rfl,
    ((header_policies_route_by_flow
      (.add (NewAddHeaderPolicy "X-Custom-Header" "test-value" FaultFlow))
      separateContext emptyMaps).2.2.1 (by decide) (by decide)).2 0 (by decide),
    ((header_policies_route_by_flow
      (.add (NewAddHeaderPolicy "X-Custom-Header" "test-value" FaultFlow))
      separateContext emptyMaps).2.2.1 (by decide) (by decide)).2 1 (by decide),
    (((header_policies_route_by_flow
      (.add (NewAddHeaderPolicy "X-Custom-Header" "test-value" FaultFlow))
      sharedContext emptyMaps).2.2.1 (by decide) (by decide)).1 0 rfl).2⟩

/-! ## The interceptor policy (C9, C10) -/

/-- C9, as stated, fails: generic flow, empty generic headers, and a reply whose
header map has the two names `x-a` (values `1`) and `X-A` (values `2`).  Both calls
succeed.  When the loop visits `x-a` first the store ends with the value `2` for
`x-a`, not its reply values `1` (and the map has no entry under the key `x-a` at
all); when it visits `X-A` first the store ends with `1` for `X-A`, not `2`. -/
theorem c9_names_differing_in_case_overwrite :
    ((NewInterceptorPolicy "http://svc" "").Execute
        (replyServices { Headers := [("x-a", ["1"]), ("X-A", ["2"])], Body := "", Status := 0 })
        (some genericContext)).result = .ok () ∧
    (((NewInterceptorPolicy "http://svc" "").Execute
        (replyServices { Headers := [("x-a", ["1"]), ("X-A", ["2"])], Body := "", Status := 0 })
        (some genericContext)).ctx.bind fun c => c.Headers.map fun h => h.Values "x-a")
      = some ["2"] ∧
    (((NewInterceptorPolicy "http://svc" "").Execute
        (replyServices { Headers := [("x-a", ["1"]), ("X-A", ["2"])], Body := "", Status := 0 })
        (some genericContext)).ctx.bind fun c => c.Headers.map fun h => h.entry "x-a")
      = some none ∧
    ((NewInterceptorPolicy "http://svc" "").Execute
        (replyServices { Headers := [("X-A", ["2"]), ("x-a", ["1"])], Body := "", Status := 0 })
        (some genericContext)).result = .ok () ∧
    (((NewInterceptorPolicy "http://svc" "").Execute
        (replyServices { Headers := [("X-A", ["2"]), ("x-a", ["1"])], Body := "", Status := 0 })
        (some genericContext)).ctx.bind fun c => c.Headers.map fun h => h.Values "X-A")
      = some ["1"] := by
  refine ⟨by decide, by decide, by decide, by decide, by decide⟩

/-- C9, amended: header names are compared as HTTP header names, that is by their
canonical form, and no two names of the reply are the same header name.  When
`Execute` hands the snapshot `snap` to the interceptor call and the call returns a
reply whose header names have pairwise different canonical forms, `Execute`
succeeds and the target store then holds, for every name of the reply, exactly the
reply's values for it in the reply's order (no entry when that list is empty), and
under every key that is the canonical form of no name of the reply exactly what it
held before. -/
theorem interceptor_overlays_reply_headers (sv : Services) (p : InterceptorPolicy)
    (ctx : PolicyContext) (snap : InterceptorRequest) (resp : InterceptorResponse)
    (hsent : (p.Execute sv (some ctx)).sent = some snap)
    (hreply : p.callInterceptor sv snap = .ok resp)
    (hdistinct : (resp.Headers.map fun e => CanonicalMIMEHeaderKey e.1).Nodup) :
    (p.Execute sv (some ctx)).result = .ok () ∧
    ∃ ctx1 h h1, (p.Execute sv (some ctx)).ctx = some ctx1 ∧
      selectedStore p.Flow ctx = some h ∧ selectedStore p.Flow ctx1 = some h1 ∧
      (∀ key values, (key, values) ∈ resp.Headers →
        h1.Values key = values ∧
        (values = [] → h1.entry (CanonicalMIMEHeaderKey key) = none) ∧
        (values ≠ [] → h1.entry (CanonicalMIMEHeaderKey key) = some values)) ∧
      (∀ c, (∀ e ∈ resp.Headers, CanonicalMIMEHeaderKey e.1 ≠ c) → h1.entry c = h.entry c) ∧
      (∀ name, (∀ e ∈ resp.Headers, CanonicalMIMEHeaderKey e.1 ≠ CanonicalMIMEHeaderKey name) →
        h1.Values name = h.Values name) := by
  obtain ⟨ctxM, req, h, body, hexec, hsel, hselM⟩ := execute_reaches_call sv p ctx snap hsent
  rw [hexec] at hsent ⊢
  obtain ⟨h0, hh0, hrun⟩ := afterSwitch_of_sent sv p ctxM req (some h) body snap resp hsent hreply
  have hh : h0 = h := (Option.some.inj hh0).symm
  subst hh
  rw [hrun]
  refine ⟨rfl, _, h0, applyReplyHeaders resp.Headers h0, rfl, hsel,
    selectedStore_withFlowHeaders_same _ _ ctxM h0 _ rfl hselM, ?_, ?_, ?_⟩
  · intro key values hm
    have he := applyReplyHeaders_entry (CanonicalMIMEHeaderKey key) resp.Headers h0
    rw [lastValuesFor_of_mem resp.Headers hdistinct key values hm] at he
    simp only [Header.entry] at he
    refine ⟨?_, ?_, ?_⟩
    · by_cases hv : values = [] <;> simp [Header.Values, he, hv]
    · intro hv; simp [Header.entry, he, hv]
    · intro hv; simp [Header.entry, he, hv]
  · intro c hc
    have he := applyReplyHeaders_entry c resp.Headers h0
    rw [lastValuesFor_eq_none c resp.Headers hc] at he
    exact he
  · intro name hc
    have he := applyReplyHeaders_entry (CanonicalMIMEHeaderKey name) resp.Headers h0
    rw [lastValuesFor_eq_none _ resp.Headers hc] at he
    simp only [Header.entry] at he
    simp [Header.Values, he]

/-- C9 (amended) at a concrete input: the request of `fullContext`, which carries
`X-Internal-Token`, and a reply that sets two values for `x-trace`, empties
`x-internal-token` and names nothing else. -/
theorem interceptor_overlays_reply_headers_witness :
    ((NewInterceptorPolicy "http://svc" RequestFlow).Execute
        (replyServices
          { Headers := [("x-trace", ["a", "b"]), ("x-internal-token", [])], Body := "",
            Status := 0 })
        (some fullContext)).result = .ok () ∧
    ∃ ctx1 h h1,
      ((NewInterceptorPolicy "http://svc" RequestFlow).Execute
        (replyServices
          { Headers := [("x-trace", ["a", "b"]), ("x-internal-token", [])], Body := "",
            Status := 0 })
        (some fullContext)).ctx = some ctx1 ∧
      selectedStore RequestFlow fullContext = some h ∧
      selectedStore RequestFlow ctx1 = some h1 ∧
      h1.Values "x-trace" = ["a", "b"] ∧
      h1.entry (CanonicalMIMEHeaderKey "x-internal-token") = none :=
  have hw := interceptor_overlays_reply_headers
    (replyServices
      { Headers := [("x-trace", ["a", "b"]), ("x-internal-token", [])], Body := "", Status := 0 })
    (NewInterceptorPolicy "http://svc" RequestFlow) fullContext
    { Headers := some (Header.empty.Set "X-Internal-Token" "secret")
      Body := [104, 101, 108, 108, 111], Method := "GET", Path := "/users" }
    { Headers := [("x-trace", ["a", "b"]), ("x-internal-token", [])], Body := "", Status := 0 }
    rfl rfl (by decide)
  ⟨hw.1, by
    obtain ⟨ctx1, h, h1, hc, hs, hs1, hin, _, _⟩ := hw.2
    exact ⟨ctx1, h, h1, hc, hs, hs1, (hin "x-trace" ["a", "b"] (by simp)).1,
      (hin "x-internal-token" [] (by simp)).2.1 rfl⟩⟩

/-- C10: in request flow, when the request carries a body stream that reads without
error to the bytes `b`, then after `InterceptorPolicy.Execute`, whatever the
interceptor call did (reply, error or fault) and also when `Execute` stopped before
the call, the request carries a body stream that reads without error to `b`, and a
snapshot handed to the interceptor call has body `b`; the same in response flow for
the response's body stream. -/
theorem interceptor_restores_body (sv : Services) (p : InterceptorPolicy)
    (ctx : PolicyContext) (stream : Body) (b : Bytes)
    (hread : (ioReadAll stream).1 = b) (hclean : (ioReadAll stream).2.1 = none) :
    (p.Flow = RequestFlow → (ctx.Request.bind fun r => r.Body) = some stream →
      ∃ ctx1 stream1, (p.Execute sv (some ctx)).ctx = some ctx1 ∧
        (ctx1.Request.bind fun r => r.Body) = some stream1 ∧
        (ioReadAll stream1).1 = b ∧ (ioReadAll stream1).2.1 = none ∧
        ∀ snap, (p.Execute sv (some ctx)).sent = some snap → snap.Body = b) ∧
    (p.Flow = ResponseFlow → (ctx.Response.bind fun r => r.Body) = some stream →
      ∃ ctx1 stream1, (p.Execute sv (some ctx)).ctx = some ctx1 ∧
        (ctx1.Response.bind fun r => r.Body) = some stream1 ∧
        (ioReadAll stream1).1 = b ∧ (ioReadAll stream1).2.1 = none ∧
        ∀ snap, (p.Execute sv (some ctx)).sent = some snap → snap.Body = b) := by
  simp only [ioReadAll] at hread hclean
  constructor
  · intro hf hbody
    cases hr : ctx.Request with
    | none => simp [hr] at hbody
    | some req =>
      simp only [hr, Option.some_bind] at hbody
      have hx : p.Execute sv (some ctx) =
          p.afterSwitch sv
            { ctx with Request := some { req with Body := some (newBufferBody b) } }
            (some { req with Body := some (newBufferBody b) }) req.Header b := by
        simp [InterceptorPolicy.Execute, hf, hr, hbody, ioReadAll, hclean, hread]
      rw [hx]
      obtain ⟨c1, hc1, hb1, _, hs⟩ := afterSwitch_bodies sv p
        { ctx with Request := some { req with Body := some (newBufferBody b) } }
        (some { req with Body := some (newBufferBody b) }) req.Header b
      exact ⟨c1, newBufferBody b, hc1, by rw [hb1]; rfl, rfl, rfl, hs⟩
  · intro hf hbody
    have hne : ¬ (ResponseFlow = RequestFlow) := by decide
    cases hr : ctx.Response with
    | none => simp [hr] at hbody
    | some resp =>
      simp only [hr, Option.some_bind] at hbody
      have hx : p.Execute sv (some ctx) =
          p.afterSwitch sv
            { ctx with Response := some { resp with Body := some (newBufferBody b) } }
            none resp.Header b := by
        simp [InterceptorPolicy.Execute, hf, hne, hr, hbody, ioReadAll, hclean, hread]
      rw [hx]
      obtain ⟨c1, hc1, _, hb1, hs⟩ := afterSwitch_bodies sv p
        { ctx with Response := some { resp with Body := some (newBufferBody b) } }
        none resp.Header b
      exact ⟨c1, newBufferBody b, hc1, by rw [hb1]; rfl, rfl, rfl, hs⟩

/-- C10 at a concrete input: the request of `fullContext` has the body `hello`, and
the interceptor call fails in transport. -/
theorem interceptor_restores_body_witness :
    (fullContext.Request.bind fun r => r.Body)
      = some { pending := [104, 101, 108, 108, 111], failure := none } ∧
    ((NewInterceptorPolicy "http://svc" RequestFlow).Execute deadServices
        (some fullContext)).result
      = .err (.wrap "interceptor service call failed: "
          (.wrap "failed to call interceptor service: " (.new "connection refused"))) ∧
    ∃ ctx1 stream1,
      ((NewInterceptorPolicy "http://svc" RequestFlow).Execute deadServices
        (some fullContext)).ctx = some ctx1 ∧
      (ctx1.Request.bind fun r => r.Body) = some stream1 ∧
      (ioReadAll stream1).1 = [104, 101, 108, 108, 111] ∧ (ioReadAll stream1).2.1 = none ∧
      ∀ snap,
        ((NewInterceptorPolicy "http://svc" RequestFlow).Execute deadServices
          (some fullContext)).sent = some snap →
        snap.Body = [104, 101, 108, 108, 111] :=
  ⟨rfl, by decide,
    (interceptor_restores_body deadServices (NewInterceptorPolicy "http://svc" RequestFlow)
      fullContext { pending := [104, 101, 108, 108, 111], failure := none }
      [104, 101, 108, 108, 111] rfl rfl).1 rfl rfl⟩

/-! ## Executor: nil context, empty sequence, clearing (C11 to C13) -/

/-- C11: whatever policies an executor holds, `Execute(nil)` returns the error
`policy context cannot be nil` and invokes no policy's `Execute`. -/
theorem executor_rejects_nil_context (e : Executor) :
    (e.Execute none).result = .err (.new "policy context cannot be nil") ∧
    (GoError.new "policy context cannot be nil").Error = "policy context cannot be nil" ∧
    (e.Execute none).calls = [] ∧
    (e.Execute none).ctx = none :=
  ⟨rfl, rfl, rfl, rfl⟩

/-- C12: an executor with no policies, fresh from `NewExecutor` or just cleared,
returns success from `Execute` on every non-nil context, invokes nothing, and leaves
the context (request, response, generic headers, metadata) exactly as it was. -/
theorem empty_executor_leaves_context (e : Executor) (ctx : PolicyContext) :
    (NewExecutor.Execute (some ctx)).result = .ok () ∧
    (NewExecutor.Execute (some ctx)).ctx = some ctx ∧
    (NewExecutor.Execute (some ctx)).calls = [] ∧
    (e.Clear.Execute (some ctx)).result = .ok () ∧
    (e.Clear.Execute (some ctx)).ctx = some ctx ∧
    (e.Clear.Execute (some ctx)).calls = [] :=
  ⟨rfl, rfl, rfl, rfl, rfl, rfl⟩

/-- C13: after `Clear` the sequence `GetPolicies` returns is empty, of length 0,
whatever the executor held; and a policy then added (one that validates) is the
first and only element of the sequence. -/
theorem clear_empties_sequence (e : Executor) (p : Policy) (hv : p.Validate = none) :
    e.Clear.GetPolicies = [] ∧
    e.Clear.GetPolicies.length = 0 ∧
    (e.Clear.AddPolicy (some p)).1 = none ∧
    (e.Clear.AddPolicy (some p)).2.GetPolicies = [p] := by
  refine ⟨rfl, rfl, ?_, ?_⟩ <;>
    simp [Executor.AddPolicy, Executor.Clear, Executor.GetPolicies, hv]

/-- C13 at a concrete input: an executor holding two policies is cleared and one
policy is added. -/
theorem clear_empties_sequence_witness :
    addGateway.toPolicy.Validate = none ∧
    (Executor.Clear { policies := [addRequestId.toPolicy, addGateway.toPolicy] }).GetPolicies
      = [] ∧
    ((Executor.Clear { policies := [addRequestId.toPolicy, addGateway.toPolicy] }).AddPolicy
        (some addGateway.toPolicy)).2.GetPolicies = [addGateway.toPolicy] :=
  ⟨by decide,
    (clear_empties_sequence { policies := [addRequestId.toPolicy, addGateway.toPolicy] }
      addGateway.toPolicy (by decide)).1,
    (clear_empties_sequence { policies := [addRequestId.toPolicy, addGateway.toPolicy] }
      addGateway.toPolicy (by decide)).2.2.2⟩

/-! ## The header policies: idempotence, validation, frame (C14 to C17) -/

/-- C14: on a non-nil context whose selected header store is present, a header
policy `q` (an `AddHeaderPolicy` or a `RemoveHeaderPolicy`) succeeds, and executed
again on the context it left it succeeds again and leaves exactly that context:
twice is the same as once. -/
theorem header_policies_idempotent (q : HeaderPolicy) (ctx : PolicyContext) (h : Header)
    (hsel : selectedStore q.Flow ctx = some h) :
    ∃ ctx1, q.Execute (some ctx) = (.ok (), some ctx1) ∧
      q.Execute (some ctx1) = (.ok (), some ctx1) := by
  refine ⟨ctx.withFlowHeaders q.Flow (q.change h), ?_, ?_⟩
  · rw [headerPolicy_execute_eq, hsel]
  · rw [headerPolicy_execute_eq,
      selectedStore_withFlowHeaders_same q.Flow q.Flow ctx h (q.change h) rfl hsel]
    simp only [withFlowHeaders_twice, headerPolicy_change_twice]

/-- C14 at concrete inputs: setting `X-Request-ID` on the request of `fullContext`,
and removing `X-Internal-Token` from its response. -/
theorem header_policies_idempotent_witness :
    selectedStore addRequestId.Flow fullContext
      = some (Header.empty.Set "X-Internal-Token" "secret") ∧
    (∃ ctx1, addRequestId.Execute (some fullContext) = (.ok (), some ctx1) ∧
      addRequestId.Execute (some ctx1) = (.ok (), some ctx1)) ∧
    (∃ ctx1, removeTokenFromResponse.Execute (some fullContext) = (.ok (), some ctx1) ∧
      removeTokenFromResponse.Execute (some ctx1) = (.ok (), some ctx1)) :=
  ⟨rfl, header_policies_idempotent (.add addRequestId) fullContext _ rfl,
    header_policies_idempotent (.remove removeTokenFromResponse) fullContext _ rfl⟩

/-- C15: `AddHeaderPolicy.Validate` returns an error exactly when the header name is
empty or the header value is empty (`header name cannot be empty` for an empty name,
`header value cannot be empty` otherwise), and `RemoveHeaderPolicy.Validate` exactly
when the header name is empty; neither result depends on the flow.  `Validate` has
no assignment, so it is a function of the configuration that returns the error
only. -/
theorem header_policies_validate (p : AddHeaderPolicy) (r : RemoveHeaderPolicy) (flow : Flow) :
    (p.Validate ≠ none ↔ p.HeaderName = "" ∨ p.HeaderValue = "") ∧
    (p.HeaderName = "" ↔ p.Validate = some (.new "header name cannot be empty")) ∧
    (p.HeaderName ≠ "" ∧ p.HeaderValue = "" ↔
      p.Validate = some (.new "header value cannot be empty")) ∧
    (r.Validate ≠ none ↔ r.HeaderName = "") ∧
    (r.HeaderName = "" ↔ r.Validate = some (.new "header name cannot be empty")) ∧
    AddHeaderPolicy.Validate { p with Flow := flow } = p.Validate ∧
    RemoveHeaderPolicy.Validate { r with Flow := flow } = r.Validate := by
  unfold AddHeaderPolicy.Validate RemoveHeaderPolicy.Validate
  by_cases hn : p.HeaderName = "" <;> by_cases hv : p.HeaderValue = "" <;>
    by_cases hr : r.HeaderName = "" <;> simp [hn, hv, hr]

/-- C16: `InterceptorPolicy.Validate` returns an error exactly when the service URL is
empty or the timeout is at most zero; a policy built by `NewInterceptorPolicy` has
the timeout of 30 seconds and so validates exactly when its URL is not empty. -/
theorem interceptor_validate (p : InterceptorPolicy) (url : String) (flow : Flow) :
    (p.Validate ≠ none ↔ p.ServiceURL = "" ∨ p.Timeout ≤ 0) ∧
    (NewInterceptorPolicy url flow).Timeout = 30000000000 ∧
    ((NewInterceptorPolicy url flow).Validate = none ↔ url ≠ "") := by
  unfold InterceptorPolicy.Validate NewInterceptorPolicy timeSecond
  refine ⟨?_, by norm_num, ?_⟩
  · by_cases hu : p.ServiceURL = "" <;> by_cases ht : p.Timeout ≤ 0 <;> simp [hu, ht]
  · by_cases hu : url = "" <;> simp [hu]

/-- C17: on a non-nil context whose selected header store is present, a header
policy `q` (add or remove) succeeds and leaves in that store, for every header name
that differs from the configured one as an HTTP header name (by canonical form),
exactly the values it had, indeed every map entry other than the one under the
configured name's canonical key; and it leaves the metadata as it was. -/
theorem header_policies_keep_other_headers (q : HeaderPolicy) (ctx : PolicyContext)
    (h : Header) (hsel : selectedStore q.Flow ctx = some h) :
    ∃ ctx1 h1, q.Execute (some ctx) = (.ok (), some ctx1) ∧
      selectedStore q.Flow ctx1 = some h1 ∧
      (∀ name, CanonicalMIMEHeaderKey name ≠ CanonicalMIMEHeaderKey q.HeaderName →
        h1.Values name = h.Values name ∧ h1.Get name = h.Get name) ∧
      (∀ k, k ≠ CanonicalMIMEHeaderKey q.HeaderName → h1.entry k = h.entry k) ∧
      ctx1.Metadata = ctx.Metadata := by
  refine ⟨ctx.withFlowHeaders q.Flow (q.change h), q.change h, ?_,
    selectedStore_withFlowHeaders_same q.Flow q.Flow ctx h _ rfl hsel, ?_,
    fun k hk => headerPolicy_change_other q h k hk, withFlowHeaders_metadata _ _ _⟩
  · rw [headerPolicy_execute_eq, hsel]
  · intro name hname
    have he := headerPolicy_change_other q h _ hname
    simp only [Header.entry] at he
    simp [Header.Values, Header.Get, he]

/-- C17 at a concrete input: removing `X-Remove-Me` from a request that also holds
`X-Keep-Me`. -/
theorem header_policies_keep_other_headers_witness :
    ∃ ctx1 h1,
      (NewRemoveHeaderPolicy "X-Remove-Me" RequestFlow).Execute
          (some { plainRequestContext with
            Request := some
              { Method := "GET", URL := none, Body := none,
                Header := some
                  ((Header.empty.Set "X-Remove-Me" "should-be-removed").Set "X-Keep-Me"
                    "should-stay") } })
        = (.ok (), some ctx1) ∧
      selectedStore RequestFlow ctx1 = some h1 ∧
      h1.Get "X-Keep-Me" = "should-stay" ∧
      h1.Values "X-Keep-Me" = ["should-stay"] :=
  have hw := header_policies_keep_other_headers
    (.remove (NewRemoveHeaderPolicy "X-Remove-Me" RequestFlow))
    { plainRequestContext with
      Request := some
        { Method := "GET", URL := none, Body := none,
          Header := some
            ((Header.empty.Set "X-Remove-Me" "should-be-removed").Set "X-Keep-Me"
              "should-stay") } }
    ((Header.empty.Set "X-Remove-Me" "should-be-removed").Set "X-Keep-Me" "should-stay") rfl
  by
    obtain ⟨ctx1, h1, hx, hs, hkeep, _, _⟩ := hw
    refine ⟨ctx1, h1, hx, hs, ?_, ?_⟩
    · rw [(hkeep "X-Keep-Me" (by decide)).2]; decide
    · rw [(hkeep "X-Keep-Me" (by decide)).1]; decide

/-! ## Executor: the sequence holds validated policies only (C18) -/

/-- C18: in every state reached from `NewExecutor` by a series of `AddPolicy`,
`Execute` and `Clear` calls, every policy of the sequence passes `Validate`; each of
the three calls keeps that property of an executor that has it; and `Execute`
leaves the sequence as it is whatever context it is given. -/
theorem executor_holds_valid_policies (calls : List ExecutorCall) (e : Executor)
    (policy : Option Policy) (ctx : Option PolicyContext) (hinv : e.allValid) :
    (NewExecutor.afterCalls calls).allValid ∧
    (e.afterCall (.addPolicy policy)).allValid ∧
    (e.afterCall .clear).allValid ∧
    (e.afterCall (.execute ctx)).allValid ∧
    (e.afterCall (.execute ctx)).GetPolicies = e.GetPolicies := by
  have hnew : NewExecutor.allValid := by intro x hx; cases hx
  exact ⟨afterCalls_allValid calls NewExecutor hnew,
    afterCalls_allValid [.addPolicy policy] e hinv,
    afterCalls_allValid [.clear] e hinv,
    afterCalls_allValid [.execute ctx] e hinv, rfl⟩

/-- C18 at a concrete input: a series of calls that tries to add an invalid policy
and nil, and an executor holding one valid policy. -/
theorem executor_holds_valid_policies_witness :
    Executor.allValid { policies := [addGateway.toPolicy] } ∧
    (NewExecutor.afterCalls
      [.addPolicy (some addRequestId.toPolicy), .addPolicy (some addUnnamed.toPolicy),
        .addPolicy none, .execute (some plainRequestContext), .execute none, .clear,
        .addPolicy (some addGateway.toPolicy), .addPolicy (some addUnnamed.toPolicy)]).allValid ∧
    (Executor.afterCall { policies := [addGateway.toPolicy] }
      (.addPolicy (some addUnnamed.toPolicy))).allValid ∧
    (Executor.afterCall { policies := [addGateway.toPolicy] }
      (.execute (some plainRequestContext))).GetPolicies
      = Executor.GetPolicies { policies := [addGateway.toPolicy] } :=
  ⟨by decide,
    (executor_holds_valid_policies _ { policies := [addGateway.toPolicy] }
      (some addUnnamed.toPolicy) (some plainRequestContext) (by decide)).1,
    (executor_holds_valid_policies [] { policies := [addGateway.toPolicy] }
      (some addUnnamed.toPolicy) (some plainRequestContext) (by decide)).2.1,
    (executor_holds_valid_policies [] { policies := [addGateway.toPolicy] }
      (some addUnnamed.toPolicy) (some plainRequestContext) (by decide)).2.2.2.2⟩

/-! ## The interceptor policy: snapshot and failed call (C19, C20) -/

/-- C19: a snapshot that `Execute` hands to the interceptor call has as headers the
target store, as body the text read from the target's body stream (empty when the
target has no body stream, so always in generic flow), and as method and path the
request's method and URL path in request flow and two empty strings in every other
flow, whether or not the context carries a request.  Such a snapshot is handed
whenever the target store is present, the target's body stream (if any) reads
without error and, in request flow, the request has a URL. -/
theorem interceptor_snapshot_contents (sv : Services) (p : InterceptorPolicy)
    (ctx : PolicyContext) :
    (∀ snap, (p.Execute sv (some ctx)).sent = some snap →
      (∃ h, selectedStore p.Flow ctx = some h ∧ snap.Headers = some h) ∧
      (∀ stream, targetBody p.Flow ctx = some stream → snap.Body = (ioReadAll stream).1) ∧
      (targetBody p.Flow ctx = none → snap.Body = []) ∧
      (p.Flow ≠ RequestFlow → p.Flow ≠ ResponseFlow → snap.Body = []) ∧
      (p.Flow = RequestFlow → ∃ req u, ctx.Request = some req ∧ req.URL = some u ∧
        snap.Method = req.Method ∧ snap.Path = u.Path) ∧
      (p.Flow ≠ RequestFlow → snap.Method = "" ∧ snap.Path = "")) ∧
    (∀ h, selectedStore p.Flow ctx = some h →
      (∀ stream, targetBody p.Flow ctx = some stream → (ioReadAll stream).2.1 = none) →
      (p.Flow = RequestFlow → ∀ req, ctx.Request = some req → req.URL ≠ none) →
      ∃ snap, (p.Execute sv (some ctx)).sent = some snap) := by
  constructor
  · intro snap hsent
    obtain ⟨⟨h, hsel⟩, hclean, hurl⟩ := sent_requires sv p ctx snap hsent
    obtain ⟨snap1, hs1, hh, hb, hnb, hgen, hm, hother⟩ :=
      snapshot_when_resolved sv p ctx h hsel hclean hurl
    have heq : snap1 = snap := by
      rw [hs1] at hsent
      exact Option.some.inj hsent
    subst heq
    refine ⟨⟨h, hsel, hh⟩, hb, hnb, hgen, ?_, hother⟩
    intro hf
    have hreq : ∃ req, ctx.Request = some req := by
      unfold selectedStore at hsel
      unfold RequestFlow at hf
      cases hr : ctx.Request with
      | none => simp [hf, hr] at hsel
      | some req => exact ⟨req, rfl⟩
    obtain ⟨req, hr⟩ := hreq
    cases hu : req.URL with
    | none => exact absurd hu (hurl hf req hr)
    | some u => exact ⟨req, u, hr, hu, hm hf req u hr hu⟩
  · intro h hsel hclean hurl
    obtain ⟨snap1, hs1, _⟩ := snapshot_when_resolved sv p ctx h hsel hclean hurl
    exact ⟨snap1, hs1⟩

/-- C19 at concrete inputs: `fullContext` carries a request (`GET /users`, body
`hello`) and a response without body.  In request flow the snapshot has the request's
headers, body, method and path; in response flow it has the response's headers, and
method and path are empty although the request is there. -/
theorem interceptor_snapshot_contents_witness :
    ((NewInterceptorPolicy "http://svc" RequestFlow).Execute deadServices
        (some fullContext)).sent
      = some { Headers := some (Header.empty.Set "X-Internal-Token" "secret")
               Body := [104, 101, 108, 108, 111], Method := "GET", Path := "/users" } ∧
    ((NewInterceptorPolicy "http://svc" ResponseFlow).Execute deadServices
        (some fullContext)).sent
      = some { Headers := some (Header.empty.Set "Server" "backend")
               Body := [], Method := "", Path := "" } ∧
    (∃ h, selectedStore RequestFlow fullContext = some h ∧
      some (Header.empty.Set "X-Internal-Token" "secret") = some h) ∧
    ((NewInterceptorPolicy "http://svc" ResponseFlow).Flow ≠ RequestFlow →
      (InterceptorRequest.mk (some (Header.empty.Set "Server" "backend")) [] "" "").Method = "" ∧
      (InterceptorRequest.mk (some (Header.empty.Set "Server" "backend")) [] "" "").Path = "") :=
  ⟨rfl, rfl,
    ((interceptor_snapshot_contents deadServices
      (NewInterceptorPolicy "http://svc" RequestFlow) fullContext).1 _ rfl).1,
    ((interceptor_snapshot_contents deadServices
      (NewInterceptorPolicy "http://svc" ResponseFlow) fullContext).1 _ rfl).2.2.2.2.2⟩

/-- C20: when `Execute` has handed the snapshot `snap` to the interceptor call and the
call returns an error `e`, for whatever reason, `Execute` returns the error whose
message is `interceptor service call failed: ` followed by the message of `e`, and
the target header store is the one it was before `Execute`: nothing of an overlay is
applied.  The reasons the claim names are such errors: with the request built and a
client present, a transport error, a reply status other than 200, and a reply body
that does not decode each make the call return an error. -/
theorem interceptor_failed_call_keeps_headers (sv : Services) (p : InterceptorPolicy)
    (ctx : PolicyContext) (snap : InterceptorRequest) (e : GoError)
    (hsent : (p.Execute sv (some ctx)).sent = some snap)
    (hfail : p.callInterceptor sv snap = .err e) :
    (p.Execute sv (some ctx)).result
      = .err (.wrap "interceptor service call failed: " e) ∧
    (GoError.wrap "interceptor service call failed: " e).Error
      = "interceptor service call failed: " ++ e.Error ∧
    (∃ ctx1 h, (p.Execute sv (some ctx)).ctx = some ctx1 ∧
      selectedStore p.Flow ctx = some h ∧ selectedStore p.Flow ctx1 = some h) ∧
    (∀ reqBody httpReq client, sv.jsonMarshal snap = .ok reqBody →
      sv.httpNewRequest "POST" p.ServiceURL reqBody = .ok httpReq →
      p.HTTPClient = some client →
      (∀ terr,
        sv.clientDo client
            { httpReq with Header := httpReq.Header.Set "Content-Type" "application/json" }
          = .error terr →
        p.callInterceptor sv snap
          = .err (.wrap "failed to call interceptor service: " terr)) ∧
      (∀ reply,
        sv.clientDo client
            { httpReq with Header := httpReq.Header.Set "Content-Type" "application/json" }
          = .ok reply →
        reply.StatusCode ≠ 200 →
        p.callInterceptor sv snap
          = .err (.new ("interceptor service returned status " ++ toString reply.StatusCode))) ∧
      (∀ reply derr,
        sv.clientDo client
            { httpReq with Header := httpReq.Header.Set "Content-Type" "application/json" }
          = .ok reply →
        reply.StatusCode = 200 → (ioReadAll reply.Body).2.1 = none →
        sv.jsonUnmarshal (ioReadAll reply.Body).1 = .error derr →
        p.callInterceptor sv snap = .err (.wrap "failed to unmarshal response: " derr))) := by
  obtain ⟨ctxM, req, h, body, hexec, hsel, hselM⟩ := execute_reaches_call sv p ctx snap hsent
  rw [hexec] at hsent ⊢
  rw [afterSwitch_of_failed_call sv p ctxM req h body snap e hsent hfail]
  exact ⟨rfl, rfl, ⟨ctxM, h, rfl, hsel, hselM⟩,
    fun reqBody httpReq client hm hn hc =>
      callInterceptor_failure_reasons sv p snap reqBody httpReq client hm hn hc⟩

/-- C20 at a concrete input: request flow on `fullContext` against a service whose
transport fails. -/
theorem interceptor_failed_call_keeps_headers_witness :
    ((NewInterceptorPolicy "http://svc" RequestFlow).Execute deadServices
        (some fullContext)).sent
      = some { Headers := some (Header.empty.Set "X-Internal-Token" "secret")
               Body := [104, 101, 108, 108, 111], Method := "GET", Path := "/users" } ∧
    (NewInterceptorPolicy "http://svc" RequestFlow).callInterceptor deadServices
        { Headers := some (Header.empty.Set "X-Internal-Token" "secret")
          Body := [104, 101, 108, 108, 111], Method := "GET", Path := "/users" }
      = .err (.wrap "failed to call interceptor service: " (.new "connection refused")) ∧
    ((NewInterceptorPolicy "http://svc" RequestFlow).Execute deadServices
        (some fullContext)).result
      = .err (.wrap "interceptor service call failed: "
          (.wrap "failed to call interceptor service: " (.new "connection refused"))) ∧
    ∃ ctx1 h,
      ((NewInterceptorPolicy "http://svc" RequestFlow).Execute deadServices
        (some fullContext)).ctx = some ctx1 ∧
      selectedStore RequestFlow fullContext = some h ∧
      selectedStore RequestFlow ctx1 = some h :=
  ⟨rfl, rfl,
    (interceptor_failed_call_keeps_headers deadServices
      (NewInterceptorPolicy "http://svc" RequestFlow) fullContext _
      (.wrap "failed to call interceptor service: " (.new "connection refused")) rfl rfl).1,
    (interceptor_failed_call_keeps_headers deadServices
      (NewInterceptorPolicy "http://svc" RequestFlow) fullContext _
      (.wrap "failed to call interceptor service: " (.new "connection refused"))
      rfl rfl).2.2.1⟩

/-! ## The interceptor policy: visiting order, request without URL (C21, C22) -/

/-- C21, at the failing input: a reply with the names `x-a` (value `1`) and `X-A`
(value `2`), which differ only in letter case, applied to an empty store.  The two
orders in which the loop can visit the names produce different stores: visiting
`x-a` first leaves `2` under `X-A`, visiting `X-A` first leaves `1`.  It is the same
for `Execute` in generic flow on a context with empty generic headers. -/
theorem overlay_depends_on_visiting_order :
    List.Perm [("x-a", ["1"]), ("X-A", ["2"])] [("X-A", ["2"]), ("x-a", ["1"])] ∧
    (applyReplyHeaders [("x-a", ["1"]), ("X-A", ["2"])] Header.empty).Values "X-A" = ["2"] ∧
    (applyReplyHeaders [("X-A", ["2"]), ("x-a", ["1"])] Header.empty).Values "X-A" = ["1"] ∧
    applyReplyHeaders [("x-a", ["1"]), ("X-A", ["2"])] Header.empty
      ≠ applyReplyHeaders [("X-A", ["2"]), ("x-a", ["1"])] Header.empty ∧
    (((NewInterceptorPolicy "http://svc" "").Execute
        (replyServices { Headers := [("x-a", ["1"]), ("X-A", ["2"])], Body := "", Status := 0 })
        (some genericContext)).ctx.bind fun c => c.Headers.map fun h => h.Values "X-A")
      = some ["2"] ∧
    (((NewInterceptorPolicy "http://svc" "").Execute
        (replyServices { Headers := [("X-A", ["2"]), ("x-a", ["1"])], Body := "", Status := 0 })
        (some genericContext)).ctx.bind fun c => c.Headers.map fun h => h.Values "X-A")
      = some ["1"] := by
  refine ⟨List.Perm.swap _ _ _, by decide, by decide, ?_, by decide, by decide⟩
  intro h
  have h2 := congrArg (fun m : Header => m.Values "X-A") h
  revert h2
  decide

/-- C22, at the failing input: request flow on a request that has a header map but
no URL.  Whatever the service would answer, `Execute` neither succeeds nor returns an
error: it faults on `req.URL.Path`, before a snapshot is handed to the interceptor
call, and an executor holding the policy faults with it. -/
theorem interceptor_faults_on_request_without_url (sv : Services) :
    (noUrlContext.Request.bind fun r => r.Header).isSome = true ∧
    ((NewInterceptorPolicy "http://svc" RequestFlow).Execute sv (some noUrlContext)).result
      = .fault "nil pointer dereference: req.URL" ∧
    ((NewInterceptorPolicy "http://svc" RequestFlow).Execute sv (some noUrlContext)).sent
      = none ∧
    (Executor.Execute
        { policies := [(NewInterceptorPolicy "http://svc" RequestFlow).toPolicy sv] }
        (some noUrlContext)).result
      = .fault "nil pointer dereference: req.URL" :=
  ⟨rfl, rfl, rfl, rfl⟩

end Policies
